import Mathlib

/-!
Verification development for the `neurocombat_sklearn` repository
(`neurocombat_sklearn/neurocombat_sklearn.py`, class `CombatTransformer`).

The numeric model: IEEE floating point values are modelled by `F := Option ℚ`,
where `none` stands for a non-finite value (NaN, and the non-finite results of
division by zero).  All arithmetic is exact rational arithmetic; operations
propagate `none`, comparisons against `none` are `false` (NaN semantics), and
division by zero yields `none`.  The square root is modelled partially: it is
defined exactly when the mathematical square root of the (non-negative)
rational operand is itself rational, and `none` otherwise; the concrete inputs
used in witnesses and counterexamples are chosen so that every square root
taken is exact.

Rational arithmetic is implemented through `mkRat` based operations (`qadd`,
`qsub`, `qmul`, `qdiv`) that reduce inside the Lean kernel, with bridge lemmas
identifying them with the standard field operations of `ℚ`.
-/

namespace NC

/-- Kernel-computable addition on `ℚ`. -/
def qadd (a b : ℚ) : ℚ := mkRat (a.num * b.den + b.num * a.den) (a.den * b.den)

/-- Kernel-computable subtraction on `ℚ`. -/
def qsub (a b : ℚ) : ℚ := mkRat (a.num * b.den - b.num * a.den) (a.den * b.den)

/-- Kernel-computable multiplication on `ℚ`. -/
def qmul (a b : ℚ) : ℚ := mkRat (a.num * b.num) (a.den * b.den)

/-- Kernel-computable inverse on `ℚ` (`qinv 0 = 0`). -/
def qinv (b : ℚ) : ℚ := Rat.divInt b.den b.num

/-- Kernel-computable division on `ℚ` (`qdiv a 0 = 0`). -/
def qdiv (a b : ℚ) : ℚ := qmul a (qinv b)

/-- Kernel-computable negation on `ℚ`. -/
def qneg (a : ℚ) : ℚ := mkRat (-a.num) a.den

/-- Kernel-computable absolute value on `ℚ`. -/
def qabs (a : ℚ) : ℚ := if a < 0 then qneg a else a

theorem qden_cast_ne (a : ℚ) : ((a.den : ℚ)) ≠ 0 := by
  exact_mod_cast a.den_nz

theorem qadd_eq (a b : ℚ) : qadd a b = a + b := by
  rw [qadd, Rat.mkRat_eq_div]
  push_cast
  conv_rhs => rw [← Rat.num_div_den a, ← Rat.num_div_den b]
  rw [div_add_div _ _ (qden_cast_ne a) (qden_cast_ne b)]
  ring_nf

theorem qsub_eq (a b : ℚ) : qsub a b = a - b := by
  rw [qsub, Rat.mkRat_eq_div]
  push_cast
  conv_rhs => rw [← Rat.num_div_den a, ← Rat.num_div_den b]
  rw [div_sub_div _ _ (qden_cast_ne a) (qden_cast_ne b)]
  ring_nf

theorem qmul_eq (a b : ℚ) : qmul a b = a * b := by
  rw [qmul, Rat.mkRat_eq_div]
  push_cast
  conv_rhs => rw [← Rat.num_div_den a, ← Rat.num_div_den b]
  rw [div_mul_div_comm]

theorem qinv_eq (b : ℚ) : qinv b = b⁻¹ := by
  rw [qinv, Rat.inv_def']

theorem qdiv_eq (a b : ℚ) : qdiv a b = a / b := by
  rw [qdiv, qmul_eq, qinv_eq, div_eq_mul_inv]

theorem qneg_eq (a : ℚ) : qneg a = -a := by
  rw [qneg, Rat.mkRat_eq_div]
  push_cast
  rw [neg_div, Rat.num_div_den]

theorem qabs_eq (a : ℚ) : qabs a = |a| := by
  rw [qabs]
  by_cases h : a < 0
  · rw [if_pos h, qneg_eq, abs_of_neg h]
  · rw [if_neg h, abs_of_nonneg (le_of_not_lt h)]

/-- Fuel-driven version of the Newton iteration used by `Nat.sqrt`. -/
def sqrtIterF : ℕ → ℕ → ℕ → ℕ
  | 0, _, g => g
  | f+1, n, g =>
    let next := (g + n / g) / 2
    if next < g then sqrtIterF f n next else g

/-- Kernel-computable integer square root, provably equal to `Nat.sqrt`. -/
def nsqrt (n : ℕ) : ℕ := if n ≤ 1 then n else sqrtIterF n n (n / 2)

theorem sqrtIterF_eq (f n g : ℕ) (h : g < f) : sqrtIterF f n g = Nat.sqrt.iter n g := by
  induction f generalizing g with
  | zero => omega
  | succ f ih =>
    rw [sqrtIterF, Nat.sqrt.iter]
    by_cases h2 : (g + n / g) / 2 < g
    · rw [if_pos h2, dif_pos h2, ih _ (by omega)]
    · rw [if_neg h2, dif_neg h2]

theorem nsqrt_eq (n : ℕ) : nsqrt n = Nat.sqrt n := by
  rw [nsqrt, Nat.sqrt]
  by_cases h : n ≤ 1
  · rw [if_pos h, if_pos h]
  · rw [if_neg h, if_neg h]
    exact sqrtIterF_eq n n (n / 2) (by omega)

/-- Exact rational square root: `some r` with `r * r = x`, `0 ≤ r`, when such a
rational exists, otherwise `none`. -/
def ratSqrt (x : ℚ) : Option ℚ :=
  if x < 0 then none
  else
    let n := nsqrt x.num.toNat
    let d := nsqrt x.den
    if ((n : ℤ) * n = x.num ∧ d * d = x.den) then some (mkRat n d) else none

theorem ratSqrt_sound (x : ℚ) (r : ℚ) (h : ratSqrt x = some r) :
    0 ≤ r ∧ r * r = x := by
  rw [ratSqrt] at h
  by_cases hx : x < 0
  · rw [if_pos hx] at h
    exact absurd h (by simp)
  · rw [if_neg hx] at h
    by_cases hc : ((nsqrt x.num.toNat : ℤ) * nsqrt x.num.toNat = x.num ∧
        nsqrt x.den * nsqrt x.den = x.den)
    · rw [if_pos hc] at h
      obtain ⟨hn, hd⟩ := hc
      have hr : r = mkRat (nsqrt x.num.toNat) (nsqrt x.den) := by
        injection h with h2
        exact h2.symm
      have hdnz : (nsqrt x.den : ℚ) ≠ 0 := by
        have : x.den ≠ 0 := x.den_nz
        intro h0
        have : (nsqrt x.den) = 0 := by exact_mod_cast h0
        rw [this] at hd
        simp at hd
        exact x.den_nz hd.symm
      have hnQ : ((nsqrt x.num.toNat : ℚ)) * (nsqrt x.num.toNat) = ((x.num : ℚ)) := by
        exact_mod_cast congrArg (fun z : ℤ => (z : ℚ)) hn
      have hdQ : ((nsqrt x.den : ℚ)) * (nsqrt x.den) = ((x.den : ℚ)) := by
        exact_mod_cast congrArg (fun z : ℕ => (z : ℚ)) hd
      constructor
      · rw [hr, Rat.mkRat_eq_div]
        positivity
      · rw [hr, Rat.mkRat_eq_div, div_mul_div_comm]
        push_cast
        rw [hnQ, hdQ, Rat.num_div_den]
    · rw [if_neg hc] at h
      exact absurd h (by simp)

theorem ratSqrt_complete (x r : ℚ) (hr : 0 ≤ r) (hx : r * r = x) :
    ratSqrt x = some r := by
  have hxnn : 0 ≤ x := by rw [← hx]; positivity
  have hnum : x.num = r.num * r.num := by rw [← hx, Rat.mul_self_num]
  have hden : x.den = r.den * r.den := by rw [← hx, Rat.mul_self_den]
  have hrnum : 0 ≤ r.num := Rat.num_nonneg.2 hr
  have hnumT : x.num.toNat = r.num.toNat * r.num.toNat := by
    rw [hnum]
    rcases Int.eq_ofNat_of_zero_le hrnum with ⟨k, hk⟩
    rw [hk, ← Int.natCast_mul, Int.toNat_natCast, Int.toNat_natCast]
  rw [ratSqrt, if_neg (not_lt.2 hxnn)]
  have hs1 : nsqrt x.num.toNat = r.num.toNat := by
    rw [nsqrt_eq, hnumT, Nat.sqrt_eq]
  have hs2 : nsqrt x.den = r.den := by
    rw [nsqrt_eq, hden, Nat.sqrt_eq]
  rw [if_pos]
  · rw [hs1, hs2]
    congr 1
    have : ((r.num.toNat : ℤ)) = r.num := Int.toNat_of_nonneg hrnum
    rw [this]
    exact Rat.mkRat_self r
  · constructor
    · rw [hs1, hnum]
      have : ((r.num.toNat : ℤ)) = r.num := Int.toNat_of_nonneg hrnum
      rw [this]
    · rw [hs2, hden]

theorem ratSqrt_none (x : ℚ) (h : ∀ r : ℚ, 0 ≤ r → r * r ≠ x) :
    ratSqrt x = none := by
  cases hs : ratSqrt x with
  | none => rfl
  | some r =>
    obtain ⟨h1, h2⟩ := ratSqrt_sound x r hs
    exact absurd h2 (h r h1)

/-- The float model of the pipeline: `some q` is the finite value `q`; `none`
is a non-finite value.  NaN and the signed infinities (such as the result of
dividing a nonzero value by zero) are conflated here; all the pipeline-level
properties proved below are insensitive to the distinction, because every
comparison made on a possibly non-finite value in those paths treats it like
NaN.  The one place the program distinguishes them — the `while` guard of
`_iteration_solver`, where `inf > tol` is true but `nan > tol` is false — is
analysed over the refinement `XF` below, which separates them. -/
abbrev F : Type := Option ℚ

/-- Float addition: propagates non-finite values. -/
def fadd : F → F → F
  | some a, some b => some (qadd a b)
  | _, _ => none

/-- Float subtraction: propagates non-finite values. -/
def fsub : F → F → F
  | some a, some b => some (qsub a b)
  | _, _ => none

/-- Float multiplication: propagates non-finite values. -/
def fmul : F → F → F
  | some a, some b => some (qmul a b)
  | _, _ => none

/-- Float division: propagates non-finite values; division by zero is
non-finite (in this conflated model a zero divisor gives `none` whether the
numerator is zero — NaN — or nonzero — a signed infinity; `xdiv` on `XF`
separates the two). -/
def fdiv : F → F → F
  | some a, some b => if b = 0 then none else some (qdiv a b)
  | _, _ => none

/-- Float absolute value. -/
def fabs : F → F
  | some a => some (qabs a)
  | none => none

/-- Float square root: non-finite input, negative input, and irrational exact
square roots are modelled as non-finite. -/
def fsqrt : F → F
  | some a => ratSqrt a
  | none => none

/-- Float strict greater-than; any comparison involving a non-finite value is
false (NaN comparison semantics). -/
def fgt : F → F → Bool
  | some a, some b => decide (b < a)
  | _, _ => false

/-- The `isnan` predicate of numpy in this model. -/
def fisnan : F → Bool
  | some _ => false
  | none => true

theorem fadd_some (a b : ℚ) : fadd (some a) (some b) = some (a + b) := by
  rw [fadd, qadd_eq]

theorem fsub_some (a b : ℚ) : fsub (some a) (some b) = some (a - b) := by
  rw [fsub, qsub_eq]

theorem fmul_some (a b : ℚ) : fmul (some a) (some b) = some (a * b) := by
  rw [fmul, qmul_eq]

theorem fdiv_some (a b : ℚ) :
    fdiv (some a) (some b) = if b = 0 then none else some (a / b) := by
  rw [fdiv, qdiv_eq]

theorem fadd_none_left (b : F) : fadd none b = none := by cases b <;> rfl

theorem fadd_none_right (a : F) : fadd a none = none := by cases a <;> rfl

theorem fsub_none_left (b : F) : fsub none b = none := by cases b <;> rfl

theorem fsub_none_right (a : F) : fsub a none = none := by cases a <;> rfl

theorem fmul_none_left (b : F) : fmul none b = none := by cases b <;> rfl

theorem fmul_none_right (a : F) : fmul a none = none := by cases a <;> rfl

theorem fdiv_none_left (b : F) : fdiv none b = none := by cases b <;> rfl

theorem fdiv_none_right (a : F) : fdiv a none = none := by cases a <;> rfl

/-- Multiplying numerator and denominator of a float division by the same
nonzero finite constant leaves the quotient unchanged. -/
theorem fdiv_fmul_cancel (c : ℚ) (hc : c ≠ 0) (a b : F) :
    fdiv (fmul (some c) a) (fmul (some c) b) = fdiv a b := by
  cases a with
  | none => rw [fmul_none_right, fdiv_none_left, fdiv_none_left]
  | some x =>
    cases b with
    | none => rw [fmul_none_right, fdiv_none_right, fdiv_none_right]
    | some y =>
      rw [fmul_some, fmul_some, fdiv_some, fdiv_some]
      by_cases hy : y = 0
      · rw [if_pos (by rw [hy, mul_zero]), if_pos hy]
      · rw [if_neg (by exact mul_ne_zero hc hy), if_neg hy,
          mul_div_mul_left _ _ hc]

/-- Float multiplication distributes over float addition when the multiplier
is finite. -/
theorem fmul_some_fadd (c : ℚ) (a b : F) :
    fmul (some c) (fadd a b) = fadd (fmul (some c) a) (fmul (some c) b) := by
  cases a with
  | none => rw [fadd_none_left, fmul_none_right, fadd_none_left]
  | some x =>
    cases b with
    | none => rw [fadd_none_right, fmul_none_right, fadd_none_right]
    | some y =>
      rw [fadd_some, fmul_some, fmul_some, fmul_some, fadd_some, mul_add]

/-- Float multiplication distributes over float subtraction when the
multiplier is finite. -/
theorem fmul_some_fsub (c : ℚ) (a b : F) :
    fmul (some c) (fsub a b) = fsub (fmul (some c) a) (fmul (some c) b) := by
  cases a with
  | none => rw [fsub_none_left, fmul_none_right, fsub_none_left]
  | some x =>
    cases b with
    | none => rw [fsub_none_right, fmul_none_right, fsub_none_right]
    | some y =>
      rw [fsub_some, fmul_some, fmul_some, fmul_some, fsub_some, mul_sub]

theorem fmul_some_some_assoc (c d : ℚ) (a : F) :
    fmul (some c) (fmul (some d) a) = fmul (some (c * d)) a := by
  cases a with
  | none => rw [fmul_none_right, fmul_none_right, fmul_none_right]
  | some x => rw [fmul_some, fmul_some, fmul_some, mul_assoc]

theorem fmul_comm (a b : F) : fmul a b = fmul b a := by
  cases a with
  | none => rw [fmul_none_left, fmul_none_right]
  | some x =>
    cases b with
    | none => rw [fmul_none_left, fmul_none_right]
    | some y => rw [fmul_some, fmul_some, mul_comm]

/-- The float square of a scaled finite value. -/
theorem fmul_self_scale (c : ℚ) (a : F) :
    fmul (fmul (some c) a) (fmul (some c) a) =
      fmul (some (c * c)) (fmul a a) := by
  cases a with
  | none => simp [fmul_none_right]
  | some x => rw [fmul_some, fmul_some, fmul_some, fmul_some]; ring_nf

/-- Square roots commute with scaling by the square of a positive rational. -/
theorem fsqrt_scale (c : ℚ) (hc : 0 < c) (a : F) :
    fsqrt (fmul (some (c * c)) a) = fmul (some c) (fsqrt a) := by
  cases a with
  | none => rw [fmul_none_right]; rfl
  | some x =>
    rw [fmul_some]
    show ratSqrt (c * c * x) = fmul (some c) (ratSqrt x)
    cases hs : ratSqrt x with
    | some r =>
      obtain ⟨h1, h2⟩ := ratSqrt_sound x r hs
      have : ratSqrt (c * c * x) = some (c * r) := by
        apply ratSqrt_complete
        · positivity
        · rw [← h2]; ring
      rw [this, fmul_some]
    | none =>
      have : ratSqrt (c * c * x) = none := by
        apply ratSqrt_none
        intro r hr hrx
        have : ratSqrt x = some (r / c) := by
          apply ratSqrt_complete
          · positivity
          · rw [div_mul_div_comm, hrx]
            field_simp
        rw [this] at hs
        exact absurd hs (by simp)
      rw [this, fmul_none_right]

/-! ### Vectors and matrices

Matrices are lists of rows over the float model `F`.  They mirror the numpy
arrays used by the source; `tr` is `.T`, `matMul` is `np.dot`, `outerOnes v n`
is `np.dot(v[:, np.newaxis], np.ones((1, n)))`. -/

/-- A matrix over the float model, as a list of rows. -/
abbrev Mat : Type := List (List F)

/-- Sum of a float vector (`np.sum`). -/
def fsum (l : List F) : F := l.foldr fadd (some 0)

/-- Dot product of two float vectors. -/
def dotF (a b : List F) : F := fsum (List.zipWith fmul a b)

/-- Number of columns of a matrix (its rows are assumed rectangular). -/
def width (m : Mat) : ℕ := (m.headD []).length

/-- Column `i` of a matrix. -/
def colAt (m : Mat) (i : ℕ) : List F := m.map (fun r => r.getD i (some 0))

/-- Matrix transpose (numpy `.T`) for rectangular matrices. -/
def tr (m : Mat) : Mat := (List.range (width m)).map (colAt m)

/-- Matrix product (`np.dot`). -/
def matMul (a b : Mat) : Mat := a.map (fun ra => (tr b).map (fun cb => dotF ra cb))

/-- `np.dot(v[:, np.newaxis], np.ones((1, n)))`: broadcast a column vector to
an `(len v) × n` matrix. -/
def outerOnes (v : List F) (n : ℕ) : Mat := v.map (fun x => List.replicate n x)

/-- Elementwise combination of two matrices of identical shape. -/
def mzip (f : F → F → F) (a b : Mat) : Mat := List.zipWith (List.zipWith f) a b

/-- Elementwise matrix subtraction. -/
def msub (a b : Mat) : Mat := mzip fsub a b

/-- Elementwise matrix addition. -/
def madd (a b : Mat) : Mat := mzip fadd a b

/-- Elementwise matrix division. -/
def mdivE (a b : Mat) : Mat := mzip fdiv a b

/-- Elementwise matrix product. -/
def mmulE (a b : Mat) : Mat := mzip fmul a b

/-- Elementwise square of a matrix (`m ** 2`). -/
def msq (m : Mat) : Mat := m.map (fun r => r.map (fun x => fmul x x))

/-- First `k` columns of a matrix (`m[:, :k]`). -/
def takeCols (k : ℕ) (m : Mat) : Mat := m.map (List.take k)

/-- Zero out the first `k` entries of a row. -/
def zeroFirst : ℕ → List F → List F
  | 0, r => r
  | _+1, [] => []
  | k+1, _ :: xs => some 0 :: zeroFirst k xs

/-- Copy of a matrix with the first `k` columns zeroed (`tmp[:, :k] = 0`). -/
def zeroFirstCols (k : ℕ) (m : Mat) : Mat := m.map (zeroFirst k)

/-- Fancy column selection `m[:, idxs]`. -/
def selectCols (m : Mat) (idxs : List ℕ) : Mat :=
  m.map (fun r => idxs.map (fun i => r.getD i (some 0)))

/-- Fancy row selection `m[idxs, :]`. -/
def selectRows (m : Mat) (idxs : List ℕ) : Mat := idxs.map (fun i => m.getD i [])

/-- Write value `x` at position `i` of a row. -/
def setAt : List F → ℕ → F → List F
  | [], _, _ => []
  | _ :: xs, 0, x => x :: xs
  | y :: xs, i+1, x => y :: setAt xs i x

/-- Fancy column assignment for one row: positions `idxs` receive the
corresponding entries of `vals`. -/
def assignRow (r : List F) (idxs : List ℕ) (vals : List F) : List F :=
  (List.zip idxs vals).foldl (fun acc p => setAt acc p.1 p.2) r

/-- Fancy column assignment `m[:, idxs] = vals` (row counts agree in every
reachable use; with `idxs = []` the assignment is a no-op, matching numpy). -/
def assignCols (m : Mat) (idxs : List ℕ) (vals : Mat) : Mat :=
  (List.range m.length).map (fun i => assignRow (m.getD i []) idxs (vals.getD i []))

/-- numpy `ndarray.max()`: NaN-propagating maximum of a vector. -/
def fmax2 : F → F → F
  | some a, some b => some (if a < b then b else a)
  | _, _ => none

/-- numpy maximum of a (nonempty) vector; propagates NaN. -/
def npmax : List F → F
  | [] => none
  | x :: xs => xs.foldl fmax2 x

/-- Python builtin two-argument `max`: returns the second argument only if it
compares strictly greater (so a NaN second argument is ignored, while a NaN
first argument wins). -/
def pymax (a b : F) : F := if fgt b a then b else a

/-- numpy `np.mean` of a vector. -/
def npmean (l : List F) : F := fdiv (fsum l) (some ((l.length : ℚ)))

/-- numpy `np.var(l, ddof=1)`: unbiased sample variance.  On a single
observation the divisor is zero and the result is non-finite (numpy emits NaN
with a warning and no exception). -/
def npvar1 (l : List F) : F :=
  let m := npmean l
  fdiv (fsum (l.map (fun x => fmul (fsub x m) (fsub x m))))
    (some (qsub ((l.length : ℚ)) 1))

/-- Insert a rational into a sorted deduplicated list. -/
def insertSorted (x : ℚ) : List ℚ → List ℚ
  | [] => [x]
  | y :: ys =>
    if x < y then x :: y :: ys
    else if x = y then y :: ys
    else y :: insertSorted x ys

/-- `np.unique`: sorted list of the distinct values. -/
def uniqueSorted (l : List ℚ) : List ℚ := l.foldr insertSorted []

/-- `np.where(sites == c)[0]`: indices at which the vector equals `c`. -/
def idxWhere (l : List ℚ) (c : ℚ) : List ℕ :=
  (List.range l.length).filter (fun i => decide (l.getD i 0 = c))

theorem mem_insertSorted (x a : ℚ) (l : List ℚ) :
    a ∈ insertSorted x l ↔ a = x ∨ a ∈ l := by
  induction l with
  | nil => simp [insertSorted]
  | cons y ys ih =>
    rw [insertSorted]
    by_cases h1 : x < y
    · rw [if_pos h1]; simp
    · rw [if_neg h1]
      by_cases h2 : x = y
      · rw [if_pos h2]; subst h2; simp
      · rw [if_neg h2]; simp [ih]; tauto

theorem mem_uniqueSorted (a : ℚ) (l : List ℚ) :
    a ∈ uniqueSorted l ↔ a ∈ l := by
  induction l with
  | nil => simp [uniqueSorted]
  | cons y ys ih =>
    rw [uniqueSorted, List.foldr_cons]
    rw [show List.foldr insertSorted [] ys = uniqueSorted ys from rfl]
    rw [mem_insertSorted, ih]
    simp

/-! ### The transformer state and its method monad -/

instance exceptDecEq {ε α : Type} [DecidableEq ε] [DecidableEq α] :
    DecidableEq (Except ε α) := fun x y =>
  match x, y with
  | Except.ok a, Except.ok b =>
    if h : a = b then isTrue (congrArg Except.ok h)
    else isFalse (fun hc => h (Except.ok.inj hc))
  | Except.ok _, Except.error _ => isFalse (fun hc => Except.noConfusion hc)
  | Except.error _, Except.ok _ => isFalse (fun hc => Except.noConfusion hc)
  | Except.error e, Except.error f =>
    if h : e = f then isTrue (congrArg Except.error h)
    else isFalse (fun hc => h (Except.error.inj hc))

/-- Python exceptions raised (or raisable) by the translated code. -/
inductive PyErr : Type
  | valueError (msg : String)
  | attributeError (attr : String)
  | linAlgError
  | notFitted
  | fuelExhausted
deriving DecidableEq

/-- The data-dependent attributes of a `CombatTransformer` instance.  A field
that is `none` models a Python attribute that is not set on the object. -/
structure CState : Type where
  n_sites : Option ℕ := none
  sites_names : Option (List ℚ) := none
  discrete_covariates_used : Option Bool := none
  continuous_covariates_used : Option Bool := none
  site_encoder : Option (List ℚ) := none
  discrete_encoders : Option (List (List ℚ)) := none
  beta_hat : Option Mat := none
  grand_mean : Option (List F) := none
  var_pooled : Option (List F) := none
  gamma_star : Option Mat := none
  delta_star : Option Mat := none
deriving DecidableEq

/-- The state of a freshly constructed estimator. -/
def emptyState : CState := {}

/-- Method monad: state plus Python exceptions.  Python exceptions do not roll
back attribute mutations, so the (possibly mutated) state is returned even on
error. -/
def CM (α : Type) : Type := CState → CState × Except PyErr α

instance : Monad CM where
  pure a := fun s => (s, Except.ok a)
  bind x f := fun s =>
    match x s with
    | (s2, Except.ok a) => f a s2
    | (s2, Except.error e) => (s2, Except.error e)

/-- Raise a Python exception. -/
def CM.throw {α : Type} (e : PyErr) : CM α := fun s => (s, Except.error e)

/-- Lift an exception-only computation into the method monad. -/
def liftE {α : Type} (x : Except PyErr α) : CM α := fun s => (s, x)

/-- Read the whole instance state. -/
def getSt : CM CState := fun s => (s, Except.ok s)

/-- Read an attribute; missing attributes raise `AttributeError`. -/
def getAttr {α : Type} (proj : CState → Option α) (name : String) : CM α :=
  fun s =>
    match proj s with
    | some v => (s, Except.ok v)
    | none => (s, Except.error (PyErr.attributeError name))

/-- Assign an attribute. -/
def setSt (upd : CState → CState) : CM Unit := fun s => (upd s, Except.ok ())

/-- Delete an attribute (`del self.x`); missing attributes raise
`AttributeError`. -/
def delAttr {α : Type} (proj : CState → Option α) (upd : CState → CState)
    (name : String) : CM Unit :=
  fun s =>
    match proj s with
    | some _ => (upd s, Except.ok ())
    | none => (s, Except.error (PyErr.attributeError name))

/-! ### External collaborators: validation and the one-hot encoder -/

/-- sklearn `check_array` on a float matrix: non-empty, rectangular, at least
one feature, and (`force_all_finite`, the default) all entries finite. -/
def check_array_data (data : List (List F)) : Except PyErr (List (List F)) :=
  if data.length = 0 then
    Except.error (PyErr.valueError "Found array with 0 sample(s)")
  else if !(data.all (fun r => decide (r.length = width data))) then
    Except.error (PyErr.valueError "setting an array element with a sequence")
  else if width data = 0 then
    Except.error (PyErr.valueError "Found array with 0 feature(s)")
  else if !(data.all (fun r => r.all (fun x => !(fisnan x)))) then
    Except.error (PyErr.valueError "Input contains NaN, infinity or a value too large")
  else Except.ok data

/-- sklearn `check_array` on the sites column. -/
def check_array_sites (sites : List ℚ) : Except PyErr (List ℚ) :=
  if sites.length = 0 then
    Except.error (PyErr.valueError "Found array with 0 sample(s)")
  else Except.ok sites

/-- sklearn `check_array` with `dtype=None` on a discrete-covariate matrix:
non-empty and rectangular. -/
def check_array_discrete (dc : List (List ℚ)) : Except PyErr (List (List ℚ)) :=
  if dc.length = 0 then
    Except.error (PyErr.valueError "Found array with 0 sample(s)")
  else if !(dc.all (fun r => decide (r.length = (dc.headD []).length))) then
    Except.error (PyErr.valueError "setting an array element with a sequence")
  else Except.ok dc

/-- sklearn `check_consistent_length` on the sample counts of two inputs. -/
def check_consistent_length (n1 n2 : ℕ) : Except PyErr Unit :=
  if n1 = n2 then Except.ok ()
  else Except.error
    (PyErr.valueError "Found input variables with inconsistent numbers of samples")

/-- `OneHotEncoder.transform` for an encoder fitted with categories `cats`
(sorted distinct values, exactly `OneHotEncoder.fit` on the same column):
indicator rows, raising on values outside the fitted categories. -/
def encoder_transform (cats : List ℚ) (xs : List ℚ) : Except PyErr Mat :=
  if xs.all (fun v => decide (v ∈ cats)) then
    Except.ok (xs.map (fun v => cats.map (fun c => if v = c then some 1 else some 0)))
  else Except.error (PyErr.valueError "Found unknown categories")

/-- `np.hstack` on a non-empty block list: all blocks must agree on the number
of rows. -/
def hstack (blocks : List Mat) : Except PyErr Mat :=
  match blocks with
  | [] => Except.ok []
  | b :: bs =>
    if bs.all (fun m => decide (m.length = b.length)) then
      Except.ok (bs.foldl (fun acc m => List.zipWith (fun x y => x ++ y) acc m) b)
    else Except.error (PyErr.valueError "all the input array dimensions must match")

/-! ### `numpy.linalg.inv` via exact Gauss-Jordan elimination -/

/-- First row at index `≥ c` whose entry in column `c` is nonzero. -/
def findPivot (aug : List (List ℚ)) (c : ℕ) : Option ℕ :=
  ((List.range aug.length).drop c).find?
    (fun i => decide ((aug.getD i []).getD c 0 ≠ 0))

/-- Swap two rows of a rational matrix. -/
def swapRows (m : List (List ℚ)) (i j : ℕ) : List (List ℚ) :=
  let ri := m.getD i []
  let rj := m.getD j []
  (m.set i rj).set j ri

/-- One Gauss-Jordan pivot step on column `c`; `none` when no pivot exists
(singular matrix). -/
def elimAt (aug : List (List ℚ)) (c : ℕ) : Option (List (List ℚ)) :=
  match findPivot aug c with
  | none => none
  | some p =>
    let a1 := swapRows aug c p
    let prow := (a1.getD c []).map (fun x => qmul (qinv ((a1.getD c []).getD c 0)) x)
    let a2 := a1.set c prow
    some ((List.range a2.length).map (fun i =>
      if i = c then prow
      else
        let ri := a2.getD i []
        List.zipWith (fun a b => qsub a (qmul (ri.getD c 0) b)) ri prow))

/-- The `n × n` rational identity matrix. -/
def identityQ (n : ℕ) : List (List ℚ) :=
  (List.range n).map (fun i => (List.range n).map (fun j => if i = j then (1 : ℚ) else 0))

/-- Exact inverse of a rational matrix by Gauss-Jordan; `none` for a singular
matrix. -/
def ginvQ (m : List (List ℚ)) : Option (List (List ℚ)) :=
  let n := m.length
  let aug := List.zipWith (fun r e => r ++ e) m (identityQ n)
  ((List.range n).foldl (fun acc c => acc.bind (fun a => elimAt a c)) (some aug)).map
    (fun res => res.map (fun r => r.drop n))

/-- `numpy.linalg.inv`: raises `LinAlgError` on an exactly singular matrix;
on non-finite input it returns a non-finite result without raising. -/
def la_inv (m : Mat) : Except PyErr Mat :=
  if m.all (fun r => r.all (fun x => !(fisnan x))) then
    match ginvQ (m.map (fun r => r.map (fun x => x.getD 0))) with
    | some r => Except.ok (r.map (fun row => row.map (fun q => (some q : F))))
    | none => Except.error PyErr.linAlgError
  else Except.ok (m.map (fun r => r.map (fun _ => (none : F))))

/-! ### The empirical-Bayes iteration solver (`_iteration_solver`) -/

/-- Truncating three-argument zip. -/
def zipWith3 {α β γ δ : Type} (f : α → β → γ → δ) : List α → List β → List γ → List δ
  | a :: as, b :: bs, c :: cs => f a b c :: zipWith3 f as bs cs
  | _, _, _ => []

/-- Scalar `postmean`:
`(tau_2 * n * gamma_hat + delta_star * gamma_bar) / (tau_2 * n + delta_star)`. -/
def postmean_s (tau_2 : F) (n : ℚ) (gamma_hat gamma_bar delta_star : F) : F :=
  fdiv (fadd (fmul (fmul tau_2 (some n)) gamma_hat) (fmul delta_star gamma_bar))
    (fadd (fmul tau_2 (some n)) delta_star)

/-- Scalar `postvar`: `(0.5 * sum_2 + b_prior) / (n / 2.0 + a_prior - 1.0)`. -/
def postvar_s (sum_2 : F) (n : ℚ) (a_prior b_prior : F) : F :=
  fdiv (fadd (fmul (some (mkRat 1 2)) sum_2) b_prior)
    (fsub (fadd (some (qdiv n 2)) a_prior) (some 1))

/-- `n = (1 - np.isnan(standardized_data)).sum(axis=1)`: per-feature count of
non-missing observations. -/
def nvec (sd : Mat) : List ℚ :=
  sd.map (fun r => ((r.countP (fun x => !(fisnan x)) : ℕ) : ℚ))

/-- Vectorised `postmean` over features. -/
def postmeanV (tau_2 gamma_bar : F) (ns : List ℚ) (gamma_hat dold : List F) : List F :=
  zipWith3 (fun n g d => postmean_s tau_2 n g gamma_bar d) ns gamma_hat dold

/-- `sum_2 = ((sd - gamma_new ⊗ ones) ** 2).sum(axis=1)`. -/
def sum2V (sd : Mat) (gnew : List F) : List F :=
  (msq (msub sd (outerOnes gnew (width sd)))).map fsum

/-- Vectorised `postvar` over features. -/
def postvarV (sum2 : List F) (ns : List ℚ) (a_prior b_prior : F) : List F :=
  List.zipWith (fun s n => postvar_s s n a_prior b_prior) sum2 ns

/-- Per-feature relative change `abs(new - old) / old`. -/
def relChangeV (newV oldV : List F) : List F :=
  List.zipWith (fun a b => fdiv (fabs (fsub a b)) b) newV oldV

/-- The `change` computed in one loop body:
`max((abs(g_new - g_old) / g_old).max(), (abs(d_new - d_old) / d_old).max())`
(inner maxima are numpy reductions, the outer `max` is the Python builtin). -/
def changeOf (gnew gold dnew dold : List F) : F :=
  pymax (npmax (relChangeV gnew gold)) (npmax (relChangeV dnew dold))

/-- Default value of the `convergence` parameter of `_iteration_solver`. -/
def convergenceDefault : ℚ := mkRat 1 10000

/-- The `while change > convergence` loop of `_iteration_solver`, with explicit
fuel; `none` models not having terminated within `fuel` iterations.  The
initial `change = 1` strictly exceeds the default tolerance, so the loop body
of the source always executes at least once, which is how the recursion is
entered here. -/
def iteration_solver_go (sd : Mat) (gamma_hat : List F)
    (gamma_bar tau_2 a_prior b_prior : F) (ns : List ℚ) (conv : ℚ) :
    ℕ → List F → List F → Option (List F × List F)
  | 0, _, _ => none
  | fuel+1, gold, dold =>
    let gnew := postmeanV tau_2 gamma_bar ns gamma_hat dold
    let dnew := postvarV (sum2V sd gnew) ns a_prior b_prior
    let change := changeOf gnew gold dnew dold
    if fgt change (some conv) then
      iteration_solver_go sd gamma_hat gamma_bar tau_2 a_prior b_prior ns conv fuel gnew dnew
    else some (gnew, dnew)

/-- `_iteration_solver` with the default `convergence=0.0001`.  Note that the
`gamma_hat` argument of `postmean` is the initial estimate throughout; only
`delta_hat_old` (and the convergence bookkeeping) changes between
iterations. -/
def iteration_solver (fuel : ℕ) (sd : Mat) (gamma_hat delta_hat : List F)
    (gamma_bar tau_2 a_prior b_prior : F) : Option (List F × List F) :=
  iteration_solver_go sd gamma_hat gamma_bar tau_2 a_prior b_prior (nvec sd)
    convergenceDefault fuel gamma_hat delta_hat

/-- The `(gamma_hat_old, delta_hat_old)` pair after `k` executions of the loop
body (specification device used to state claims about the loop). -/
def solver_iter (sd : Mat) (gamma_hat delta_hat : List F)
    (gamma_bar tau_2 a_prior b_prior : F) : ℕ → List F × List F
  | 0 => (gamma_hat, delta_hat)
  | k+1 =>
    let p := solver_iter sd gamma_hat delta_hat gamma_bar tau_2 a_prior b_prior k
    let gnew := postmeanV tau_2 gamma_bar (nvec sd) gamma_hat p.2
    (gnew, postvarV (sum2V sd gnew) (nvec sd) a_prior b_prior)

/-- The `change` value computed in the `k+1`-st execution of the loop body. -/
def solver_change (sd : Mat) (gamma_hat delta_hat : List F)
    (gamma_bar tau_2 a_prior b_prior : F) (k : ℕ) : F :=
  changeOf
    (solver_iter sd gamma_hat delta_hat gamma_bar tau_2 a_prior b_prior (k+1)).1
    (solver_iter sd gamma_hat delta_hat gamma_bar tau_2 a_prior b_prior k).1
    (solver_iter sd gamma_hat delta_hat gamma_bar tau_2 a_prior b_prior (k+1)).2
    (solver_iter sd gamma_hat delta_hat gamma_bar tau_2 a_prior b_prior k).2

/-! ### The remaining private methods -/

/-- `aprior` closure of `_find_priors` (the `dtype=np.float32` of the inner
`np.var` is modelled as exact arithmetic). -/
def aprior_fn (d : List F) : F :=
  let m := npmean d
  let s2 := npvar1 d
  fdiv (fadd (fmul (some 2) s2) (fmul m m)) s2

/-- `bprior` closure of `_find_priors`. -/
def bprior_fn (d : List F) : F :=
  let m := npmean d
  let s2 := npvar1 d
  fdiv (fadd (fmul m s2) (fmul (fmul m m) m)) s2

/-- `_find_priors`: per-site `gamma_bar`, `tau_2` (mean and ddof-1 variance of
the gamma row, across features) and `a_prior`, `b_prior` (moment-matched from
the per-site `delta_hat` vector). -/
def find_priors (gamma_hat : Mat) (delta_hat : List (List F)) :
    List F × List F × List F × List F :=
  (gamma_hat.map npmean, gamma_hat.map npvar1,
    delta_hat.map aprior_fn, delta_hat.map bprior_fn)

/-- Encode and reference-level-trim every discrete covariate column
(`one_hot[:, 1:]`). -/
def encode_discrete (encs : List (List ℚ)) (dc : List (List ℚ)) :
    Except PyErr (List Mat) :=
  (List.range (dc.headD []).length).mapM (fun i => do
    let oh ← encoder_transform (encs.getD i []) (dc.map (fun r => r.getD i 0))
    Except.ok (oh.map (fun r => r.drop 1)))

/-- `_make_design_matrix`. -/
def make_design_matrix (sites : List ℚ) (discrete_covariates : Option (List (List ℚ)))
    (continuous_covariates : Option Mat) (fitting : Bool) : CM Mat := do
  (if fitting then
    setSt (fun s => { s with site_encoder := some (uniqueSorted sites) })
  else pure ())
  let cats ← getAttr (fun s => s.site_encoder) "site_encoder"
  let sites_design ← liftE (encoder_transform cats sites)
  let dblocks ← (match discrete_covariates with
    | some dc => do
        let fittedEncs := (List.range (dc.headD []).length).map
          (fun i => uniqueSorted (dc.map (fun r => r.getD i 0)))
        (if fitting then
          setSt (fun s => { s with discrete_encoders := some fittedEncs })
        else pure ())
        let encs ← getAttr (fun s => s.discrete_encoders) "discrete_encoders"
        liftE (encode_discrete encs dc)
    | none => pure [])
  let cblocks := (match continuous_covariates with
    | some cc => [cc]
    | none => [])
  liftE (hstack (sites_design :: (dblocks ++ cblocks)))

/-- `_standardize_across_features`.  In fitting mode it computes and stores
`beta_hat`, `grand_mean` and `var_pooled`; both modes then rebuild the
standardized mean and standardize the data. -/
def standardize_across_features (data design : Mat) (n_samples : ℕ)
    (n_samples_per_site : List ℕ) (fitting : Bool) : CM (Mat × Mat) := do
  (if fitting then do
    let dtdInv ← liftE (la_inv (matMul (tr design) design))
    let beta := matMul (matMul dtdInv (tr design)) (tr data)
    setSt (fun s => { s with beta_hat := some beta })
    let k ← getAttr (fun s => s.n_sites) "n_sites"
    let w : List F := n_samples_per_site.map (fun c => some (qdiv c n_samples))
    let gm := (tr (beta.take k)).map (fun col => dotF w col)
    setSt (fun s => { s with grand_mean := some gm })
    let resid := msub data (tr (matMul design beta))
    let vp := (msq resid).map (fun r =>
      dotF r (List.replicate n_samples (some (qdiv 1 n_samples))))
    setSt (fun s => { s with var_pooled := some vp })
  else pure ())
  let beta ← getAttr (fun s => s.beta_hat) "beta_hat"
  let gm ← getAttr (fun s => s.grand_mean) "grand_mean"
  let vp ← getAttr (fun s => s.var_pooled) "var_pooled"
  let k ← getAttr (fun s => s.n_sites) "n_sites"
  let tmp := zeroFirstCols k design
  let smean := madd (outerOnes gm n_samples) (tr (matMul tmp beta))
  let sdata := mdivE (msub data smean) (outerOnes (vp.map fsqrt) n_samples)
  pure (sdata, smean)

/-- `_fit_ls_model`: per-site location (OLS on the site block) and scale
(ddof-1 sample variance per site partition) estimates. -/
def fit_ls_model (standardized_data design : Mat) (idx_per_site : List (List ℕ)) :
    CM (Mat × List (List F)) := do
  let k ← getAttr (fun s => s.n_sites) "n_sites"
  let site_design := takeCols k design
  let sdInv ← liftE (la_inv (matMul (tr site_design) site_design))
  let gamma_hat := matMul (matMul sdInv (tr site_design)) (tr standardized_data)
  let delta_hat := idx_per_site.map
    (fun idxs => (selectCols standardized_data idxs).map npvar1)
  pure (gamma_hat, delta_hat)

/-- `_find_parametric_adjustments`: run the iteration solver on every site. -/
def find_parametric_adjustments (fuel : ℕ) (standardized_data : Mat)
    (idx_per_site : List (List ℕ)) (gamma_hat : Mat) (delta_hat : List (List F))
    (gamma_bar tau_2 a_prior b_prior : List F) : CM (Mat × Mat) := do
  let results ← liftE ((List.range idx_per_site.length).mapM (fun i =>
    match iteration_solver fuel (selectCols standardized_data (idx_per_site.getD i []))
        (gamma_hat.getD i []) (delta_hat.getD i [])
        (gamma_bar.getD i none) (tau_2.getD i none)
        (a_prior.getD i none) (b_prior.getD i none) with
    | some r => Except.ok r
    | none => Except.error PyErr.fuelExhausted))
  pure (results.map (fun r => r.1), results.map (fun r => r.2))

/-- `_adjust_data_final`: apply the shrunk per-site parameters and undo the
standardization. -/
def adjust_data_final (standardized_data design standardized_mean : Mat)
    (n_samples_per_site : List ℕ) (n_samples : ℕ)
    (idx_per_site : List (List ℕ)) : CM Mat := do
  let n_sites ← getAttr (fun s => s.n_sites) "n_sites"
  let var_pooled ← getAttr (fun s => s.var_pooled) "var_pooled"
  let gamma_star ← getAttr (fun s => s.gamma_star) "gamma_star"
  let delta_star ← getAttr (fun s => s.delta_star) "delta_star"
  let site_design := takeCols n_sites design
  let bayes := (List.range idx_per_site.length).foldl (fun bd j =>
    let idxs := idx_per_site.getD j []
    let denom := outerOnes ((delta_star.getD j []).map fsqrt) (n_samples_per_site.getD j 0)
    let numer := msub (selectCols bd idxs) (tr (matMul (selectRows site_design idxs) gamma_star))
    assignCols bd idxs (mdivE numer denom)) standardized_data
  pure (madd (mmulE bayes (outerOnes (var_pooled.map fsqrt) n_samples)) standardized_mean)

/-- `_reset`: delete all data-dependent attributes if `n_sites` is present.
The attribute deletions happen one by one in source order; a deletion of an
attribute that was never set raises `AttributeError`, leaving the attributes
already processed deleted. -/
def reset : CM Unit := do
  let s ← getSt
  if s.n_sites.isSome then do
    delAttr (fun st => st.n_sites) (fun st => { st with n_sites := none }) "n_sites"
    delAttr (fun st => st.sites_names) (fun st => { st with sites_names := none }) "sites_names"
    delAttr (fun st => st.discrete_covariates_used)
      (fun st => { st with discrete_covariates_used := none }) "discrete_covariates_used"
    delAttr (fun st => st.continuous_covariates_used)
      (fun st => { st with continuous_covariates_used := none }) "continuous_covariates_used"
    delAttr (fun st => st.site_encoder) (fun st => { st with site_encoder := none }) "site_encoder"
    delAttr (fun st => st.discrete_encoders)
      (fun st => { st with discrete_encoders := none }) "discrete_encoders"
    delAttr (fun st => st.beta_hat) (fun st => { st with beta_hat := none }) "beta_hat"
    delAttr (fun st => st.grand_mean) (fun st => { st with grand_mean := none }) "grand_mean"
    delAttr (fun st => st.var_pooled) (fun st => { st with var_pooled := none }) "var_pooled"
    delAttr (fun st => st.gamma_star) (fun st => { st with gamma_star := none }) "gamma_star"
    delAttr (fun st => st.delta_star) (fun st => { st with delta_star := none }) "delta_star"
  else pure ()

/-- `CombatTransformer.fit`.  The `fuel` argument bounds the iteration count
of the empirical-Bayes solver loop, which has no bound in the source; running
out of fuel models non-termination of that loop. -/
def fit (fuel : ℕ) (data : List (List F)) (sites : List ℚ)
    (discrete_covariates : Option (List (List ℚ)))
    (continuous_covariates : Option Mat) : CM Unit := do
  reset
  let data ← liftE (check_array_data data)
  let sites ← liftE (check_array_sites sites)
  liftE (check_consistent_length data.length sites.length)
  (match discrete_covariates with
   | some dc => do
      setSt (fun s => { s with discrete_covariates_used := some true })
      let _ ← liftE (check_array_discrete dc)
      pure ()
   | none => pure ())
  (match continuous_covariates with
   | some cc => do
      setSt (fun s => { s with continuous_covariates_used := some true })
      let _ ← liftE (check_array_data cc)
      pure ()
   | none => pure ())
  let dataT := tr data
  let sites_names := uniqueSorted sites
  let n_samples_per_site := sites_names.map (fun c => sites.countP (fun x => decide (x = c)))
  setSt (fun s => { s with sites_names := some sites_names })
  setSt (fun s => { s with n_sites := some sites_names.length })
  let n_samples := sites.length
  let idx_per_site := sites_names.map (fun c => idxWhere sites c)
  let design ← make_design_matrix sites discrete_covariates continuous_covariates true
  let std ← standardize_across_features dataT design n_samples n_samples_per_site true
  let ls ← fit_ls_model std.1 design idx_per_site
  let priors := find_priors ls.1 ls.2
  let adj ← find_parametric_adjustments fuel std.1 idx_per_site ls.1 ls.2
    priors.1 priors.2.1 priors.2.2.1 priors.2.2.2
  setSt (fun s => { s with gamma_star := some adj.1 })
  setSt (fun s => { s with delta_star := some adj.2 })
  pure ()

/-- `CombatTransformer.transform`. -/
def transform (data : List (List F)) (sites : List ℚ)
    (discrete_covariates : Option (List (List ℚ)))
    (continuous_covariates : Option Mat) : CM Mat := do
  let s0 ← getSt
  (if s0.n_sites.isSome then pure () else CM.throw PyErr.notFitted)
  let data ← liftE (check_array_data data)
  let sites ← liftE (check_array_sites sites)
  liftE (check_consistent_length data.length sites.length)
  let dcov ← (if s0.discrete_covariates_used.isSome then
      match discrete_covariates with
      | some dc => do
          let dc2 ← liftE (check_array_discrete dc)
          pure (some dc2)
      | none => CM.throw (PyErr.valueError "Expected 2D array, got None")
    else pure discrete_covariates)
  let ccov ← (if s0.continuous_covariates_used.isSome then
      match continuous_covariates with
      | some cc => do
          let cc2 ← liftE (check_array_data cc)
          pure (some cc2)
      | none => CM.throw (PyErr.valueError "Expected 2D array, got None")
    else pure continuous_covariates)
  let dataT := tr data
  let new_data_sites_name := uniqueSorted sites
  let names ← getAttr (fun s => s.sites_names) "sites_names"
  (if new_data_sites_name.all (fun v => decide (v ∈ names)) then pure ()
   else CM.throw (PyErr.valueError "There is a site unseen during the fit method in the data."))
  let n_samples := sites.length
  let n_samples_per_site := names.map (fun c => sites.countP (fun x => decide (x = c)))
  let idx_per_site := names.map (fun c => idxWhere sites c)
  let design ← make_design_matrix sites dcov ccov false
  let std ← standardize_across_features dataT design n_samples n_samples_per_site false
  let bayes ← adjust_data_final std.1 design std.2 n_samples_per_site n_samples idx_per_site
  pure (tr bayes)

/-! ### Running the method monad: unfolding lemmas -/

theorem bind_run {α β : Type} (x : CM α) (f : α → CM β) (s : CState) :
    (x >>= f) s =
      match x s with
      | (s2, Except.ok a) => f a s2
      | (s2, Except.error e) => (s2, Except.error e) := rfl

theorem pure_run {α : Type} (a : α) (s : CState) :
    (pure a : CM α) s = (s, Except.ok a) := rfl

theorem throw_run {α : Type} (e : PyErr) (s : CState) :
    (CM.throw e : CM α) s = (s, Except.error e) := rfl

theorem liftE_run {α : Type} (x : Except PyErr α) (s : CState) :
    liftE x s = (s, x) := rfl

theorem getSt_run (s : CState) : getSt s = (s, Except.ok s) := rfl

theorem getAttr_run {α : Type} (proj : CState → Option α) (name : String) (s : CState) :
    getAttr proj name s =
      (match proj s with
       | some v => (s, Except.ok v)
       | none => (s, Except.error (PyErr.attributeError name))) := rfl

theorem setSt_run (upd : CState → CState) (s : CState) :
    setSt upd s = (upd s, Except.ok ()) := rfl

theorem delAttr_run {α : Type} (proj : CState → Option α) (upd : CState → CState)
    (name : String) (s : CState) :
    delAttr proj upd name s =
      (match proj s with
       | some _ => (upd s, Except.ok ())
       | none => (s, Except.error (PyErr.attributeError name))) := rfl

/-- A computation that never mutates the instance state. -/
def Preserving {α : Type} (m : CM α) : Prop := ∀ s : CState, (m s).1 = s

theorem preserving_pure {α : Type} (a : α) : Preserving (pure a : CM α) :=
  fun _ => rfl

theorem preserving_throw {α : Type} (e : PyErr) : Preserving (CM.throw e : CM α) :=
  fun _ => rfl

theorem preserving_liftE {α : Type} (x : Except PyErr α) : Preserving (liftE x) :=
  fun _ => rfl

theorem preserving_getSt : Preserving getSt := fun _ => rfl

theorem preserving_getAttr {α : Type} (proj : CState → Option α) (name : String) :
    Preserving (getAttr proj name) := by
  intro s
  rw [getAttr_run]
  cases proj s <;> rfl

theorem preserving_bind {α β : Type} (x : CM α) (f : α → CM β)
    (hx : Preserving x) (hf : ∀ a, Preserving (f a)) : Preserving (x >>= f) := by
  intro s
  rw [bind_run]
  rcases hr : x s with ⟨s2, r⟩
  have hs2 : s2 = s := by
    have := hx s
    rw [hr] at this
    exact this
  cases r with
  | ok a =>
    rw [hs2]
    exact hf a s
  | error e =>
    rw [hs2]

theorem preserving_ite {α : Type} (c : Prop) [Decidable c] (x y : CM α)
    (hx : Preserving x) (hy : Preserving y) : Preserving (if c then x else y) := by
  by_cases h : c
  · rw [if_pos h]; exact hx
  · rw [if_neg h]; exact hy

/-! ### Indexing lemmas -/

theorem getD_none_of_ge {α : Type} (l : List (Option α)) (j : ℕ) (h : l.length ≤ j) :
    l.getD j none = none := by
  induction l generalizing j with
  | nil => cases j <;> rfl
  | cons x xs ih =>
    cases j with
    | zero => simp at h
    | succ j => exact ih j (by simpa using h)

theorem lt_of_getD_eq_some {α : Type} (l : List (Option α)) (j : ℕ) (x : α)
    (h : l.getD j none = some x) : j < l.length := by
  by_contra hc
  rw [getD_none_of_ge l j (by omega)] at h
  exact absurd h (by simp)

theorem getD_map_lt {α β : Type} (f : α → β) (l : List α) (j : ℕ) (da : α) (db : β)
    (h : j < l.length) : (l.map f).getD j db = f (l.getD j da) := by
  induction l generalizing j with
  | nil => simp at h
  | cons x xs ih =>
    cases j with
    | zero => rfl
    | succ j => exact ih j (by simpa using h)

theorem getD_zipWith_lt {α β γ : Type} (f : α → β → γ) (as : List α) (bs : List β)
    (j : ℕ) (da : α) (db : β) (dc : γ) (h1 : j < as.length) (h2 : j < bs.length) :
    (List.zipWith f as bs).getD j dc = f (as.getD j da) (bs.getD j db) := by
  induction as generalizing bs j with
  | nil => simp at h1
  | cons a as ih =>
    cases bs with
    | nil => simp at h2
    | cons b bs =>
      cases j with
      | zero => rfl
      | succ j => exact ih bs j (by simpa using h1) (by simpa using h2)

theorem zipWith3_length {α β γ δ : Type} (f : α → β → γ → δ)
    (as : List α) (bs : List β) (cs : List γ) :
    (zipWith3 f as bs cs).length = min (min as.length bs.length) cs.length := by
  induction as generalizing bs cs with
  | nil => simp [zipWith3]
  | cons a as ih =>
    cases bs with
    | nil => simp [zipWith3]
    | cons b bs =>
      cases cs with
      | nil => simp [zipWith3]
      | cons c cs =>
        rw [zipWith3, List.length_cons, ih]
        simp [Nat.succ_min_succ]

theorem getD_zipWith3_lt {α β γ δ : Type} (f : α → β → γ → δ)
    (as : List α) (bs : List β) (cs : List γ) (j : ℕ)
    (da : α) (db : β) (dc : γ) (dd : δ)
    (h1 : j < as.length) (h2 : j < bs.length) (h3 : j < cs.length) :
    (zipWith3 f as bs cs).getD j dd = f (as.getD j da) (bs.getD j db) (cs.getD j dc) := by
  induction as generalizing bs cs j with
  | nil => simp at h1
  | cons a as ih =>
    cases bs with
    | nil => simp at h2
    | cons b bs =>
      cases cs with
      | nil => simp at h3
      | cons c cs =>
        cases j with
        | zero => rfl
        | succ j =>
          exact ih bs cs j (by simpa using h1) (by simpa using h2) (by simpa using h3)

theorem getD_mem {α : Type} (l : List α) (j : ℕ) (d : α) (h : j < l.length) :
    l.getD j d ∈ l := by
  induction l generalizing j with
  | nil => simp at h
  | cons x xs ih =>
    cases j with
    | zero => exact List.mem_cons_self x xs
    | succ j => exact List.mem_cons_of_mem x (ih j (by simpa using h))

theorem fsum_map_some (l : List ℚ) : fsum (l.map some) = some l.sum := by
  induction l with
  | nil => rfl
  | cons x xs ih =>
    rw [List.map_cons]
    show fadd (some x) (fsum (xs.map some)) = some ((x :: xs).sum)
    rw [ih, fadd_some, List.sum_cons]

theorem zipWith_fsub_some_replicate (l : List ℚ) (g : ℚ) :
    List.zipWith fsub (l.map some) (List.replicate l.length (some g)) =
      l.map (fun x => some (x - g)) := by
  induction l with
  | nil => rfl
  | cons x xs ih =>
    rw [List.map_cons, List.length_cons, List.replicate_succ, List.zipWith_cons_cons,
      fsub_some, ih, List.map_cons]

/-- Injection of a rational vector into the float model. -/
def vmap (l : List ℚ) : List F := l.map some

/-- Injection of a rational matrix into the float model. -/
def mmap (m : List (List ℚ)) : Mat := m.map vmap

theorem nvec_mmap_getD (m : List (List ℚ)) (j : ℕ) (h : j < m.length) :
    (nvec (mmap m)).getD j 0 = ((m.getD j []).length : ℚ) := by
  rw [nvec, mmap]
  rw [getD_map_lt _ _ j [] _ (by simpa using h)]
  rw [getD_map_lt _ _ j [] _ h]
  rw [vmap]
  congr 1
  induction (m.getD j []) with
  | nil => rfl
  | cons x xs ih => simp [fisnan, ih]

/-! ### Claim C1 -/

/-- The update rule exactly as the specification sentence words it: the first
`postmean` argument is read as the gamma vector of the previous iteration
(`gamma_old`), not the initial estimate. -/
def solver_iter_claimed (sd : Mat) (gamma_hat delta_hat : List F)
    (gamma_bar tau_2 a_prior b_prior : F) : ℕ → List F × List F
  | 0 => (gamma_hat, delta_hat)
  | k+1 =>
    let p := solver_iter_claimed sd gamma_hat delta_hat gamma_bar tau_2 a_prior b_prior k
    let gnew := postmeanV tau_2 gamma_bar (nvec sd) p.1 p.2
    (gnew, postvarV (sum2V sd gnew) (nvec sd) a_prior b_prior)

/-- Concrete solver input used to separate the two readings of the update
rule: one feature, two observations, both equal to 2/3. -/
def sdC1 : Mat := [[some (mkRat 2 3), some (mkRat 2 3)]]

theorem mkRat_one_two : (mkRat 1 2 : ℚ) = 1/2 := by
  rw [Rat.mkRat_eq_div]
  norm_num

/-- C1, counterexample.  With `gamma_hat = 1`, `delta_hat = 1`,
`gamma_bar = 0`, `tau_2 = 1`, `a_prior = 1`, `b_prior = 2` on `sdC1`, the
solver's second iteration produces `gamma = 1/2` (it plugs the initial
`gamma_hat` into `postmean`), whereas the rule as claimed — with `gamma_old`
the previous iterate — would produce `1/3`.  The third conjunct shows the
loop really reaches a second iteration: the change computed by the first
body execution exceeds the default tolerance. -/
theorem C1_counterexample :
    (solver_iter sdC1 [some 1] [some 1] (some 0) (some 1) (some 1) (some 2) 2).1 =
      [some (mkRat 1 2)]
    ∧ (solver_iter_claimed sdC1 [some 1] [some 1] (some 0) (some 1) (some 1) (some 2) 2).1 =
      [some (mkRat 1 3)]
    ∧ fgt (solver_change sdC1 [some 1] [some 1] (some 0) (some 1) (some 1) (some 2) 0)
        (some convergenceDefault) = true := by
  decide

/-- C1, amended.  In every iteration of the empirical-Bayes solver the new
gamma vector is, per feature `j`,
`(tau_2 * n_j * gamma_hat_j + delta_old_j * gamma_bar) / (tau_2 * n_j + delta_old_j)`
where `gamma_hat` is the INITIAL least-squares estimate (constant across
iterations; the previous iterate enters only the convergence test),
`delta_old` is the delta vector of the previous iteration, and `n_j` is the
per-feature count of non-missing observations (here: the row length, all data
being finite); and the new delta vector is
`(0.5 * Σ (standardized_data_j - gamma_new_j)² + b_prior) / (n_j / 2 + a_prior - 1)`.
Stated over exact rational inputs with nonzero denominators. -/
theorem C1_amended_update_rule
    (sdQ : List (List ℚ)) (ghatQ dhatQ : List ℚ) (gbarQ tauQ aQ bQ : ℚ)
    (k j : ℕ) (dq : ℚ)
    (hj : j < sdQ.length) (hjg : j < ghatQ.length)
    (hrect : ∀ r ∈ sdQ, r.length = width (mmap sdQ))
    (hd : (solver_iter (mmap sdQ) (vmap ghatQ) (vmap dhatQ) (some gbarQ) (some tauQ)
        (some aQ) (some bQ) k).2.getD j none = some dq)
    (hden1 : tauQ * ((sdQ.getD j []).length : ℚ) + dq ≠ 0)
    (hden2 : ((sdQ.getD j []).length : ℚ) / 2 + aQ - 1 ≠ 0) :
    (solver_iter (mmap sdQ) (vmap ghatQ) (vmap dhatQ) (some gbarQ) (some tauQ)
        (some aQ) (some bQ) (k+1)).1.getD j none =
      some ((tauQ * ((sdQ.getD j []).length : ℚ) * ghatQ.getD j 0 + dq * gbarQ) /
        (tauQ * ((sdQ.getD j []).length : ℚ) + dq))
    ∧ (solver_iter (mmap sdQ) (vmap ghatQ) (vmap dhatQ) (some gbarQ) (some tauQ)
        (some aQ) (some bQ) (k+1)).2.getD j none =
      some ((1/2 * ((sdQ.getD j []).map (fun x =>
          (x - (tauQ * ((sdQ.getD j []).length : ℚ) * ghatQ.getD j 0 + dq * gbarQ) /
            (tauQ * ((sdQ.getD j []).length : ℚ) + dq)) *
          (x - (tauQ * ((sdQ.getD j []).length : ℚ) * ghatQ.getD j 0 + dq * gbarQ) /
            (tauQ * ((sdQ.getD j []).length : ℚ) + dq)))).sum + bQ) /
        (((sdQ.getD j []).length : ℚ) / 2 + aQ - 1)) := by
  have hjd : j < (solver_iter (mmap sdQ) (vmap ghatQ) (vmap dhatQ) (some gbarQ)
      (some tauQ) (some aQ) (some bQ) k).2.length :=
    lt_of_getD_eq_some _ _ _ hd
  have hns : j < (nvec (mmap sdQ)).length := by
    rw [nvec, List.length_map, mmap, List.length_map]
    exact hj
  have hvg : j < (vmap ghatQ).length := by
    rw [vmap, List.length_map]
    exact hjg
  have hgval : (postmeanV (some tauQ) (some gbarQ) (nvec (mmap sdQ)) (vmap ghatQ)
      (solver_iter (mmap sdQ) (vmap ghatQ) (vmap dhatQ) (some gbarQ) (some tauQ)
        (some aQ) (some bQ) k).2).getD j none =
      some ((tauQ * ((sdQ.getD j []).length : ℚ) * ghatQ.getD j 0 + dq * gbarQ) /
        (tauQ * ((sdQ.getD j []).length : ℚ) + dq)) := by
    have hgd : (vmap ghatQ).getD j none = some (ghatQ.getD j 0) := by
      rw [vmap]
      exact getD_map_lt some ghatQ j 0 none hjg
    rw [postmeanV, getD_zipWith3_lt _ _ _ _ j 0 none none none hns hvg hjd]
    rw [nvec_mmap_getD _ _ hj]
    rw [hgd, hd, postmean_s, fmul_some, fmul_some, fmul_some, fadd_some, fadd_some,
      fdiv_some, if_neg hden1]
  have hmem : sdQ.getD j [] ∈ sdQ := getD_mem sdQ j [] hj
  have hw : width (mmap sdQ) = (sdQ.getD j []).length := (hrect _ hmem).symm
  have hlg : j < (postmeanV (some tauQ) (some gbarQ) (nvec (mmap sdQ)) (vmap ghatQ)
      (solver_iter (mmap sdQ) (vmap ghatQ) (vmap dhatQ) (some gbarQ) (some tauQ)
        (some aQ) (some bQ) k).2).length := by
    rw [postmeanV, zipWith3_length]
    omega
  refine ⟨hgval, ?_⟩
  show (postvarV (sum2V (mmap sdQ) (postmeanV (some tauQ) (some gbarQ) (nvec (mmap sdQ))
      (vmap ghatQ) (solver_iter (mmap sdQ) (vmap ghatQ) (vmap dhatQ) (some gbarQ)
        (some tauQ) (some aQ) (some bQ) k).2)) (nvec (mmap sdQ)) (some aQ)
      (some bQ)).getD j none = _
  set gT := postmeanV (some tauQ) (some gbarQ) (nvec (mmap sdQ)) (vmap ghatQ)
    (solver_iter (mmap sdQ) (vmap ghatQ) (vmap dhatQ) (some gbarQ) (some tauQ)
      (some aQ) (some bQ) k).2 with hgT
  have hmm : j < (mmap sdQ).length := by
    rw [mmap, List.length_map]
    exact hj
  have houter : j < (outerOnes gT (width (mmap sdQ))).length := by
    rw [outerOnes, List.length_map]
    exact hlg
  have hmsub : j < (msub (mmap sdQ) (outerOnes gT (width (mmap sdQ)))).length := by
    rw [msub, mzip, List.length_zipWith]
    omega
  have hmsq : j < (msq (msub (mmap sdQ) (outerOnes gT (width (mmap sdQ))))).length := by
    rw [msq, List.length_map]
    exact hmsub
  have hsum : j < (sum2V (mmap sdQ) gT).length := by
    rw [sum2V, List.length_map]
    exact hmsq
  rw [postvarV, getD_zipWith_lt _ _ _ j none 0 none hsum hns]
  rw [nvec_mmap_getD _ _ hj]
  have hs2 : (sum2V (mmap sdQ) gT).getD j none =
      some (((sdQ.getD j []).map (fun x =>
        (x - (tauQ * ((sdQ.getD j []).length : ℚ) * ghatQ.getD j 0 + dq * gbarQ) /
          (tauQ * ((sdQ.getD j []).length : ℚ) + dq)) *
        (x - (tauQ * ((sdQ.getD j []).length : ℚ) * ghatQ.getD j 0 + dq * gbarQ) /
          (tauQ * ((sdQ.getD j []).length : ℚ) + dq)))).sum) := by
    rw [sum2V, getD_map_lt fsum _ j [] none hmsq]
    rw [msq, getD_map_lt _ _ j [] [] hmsub]
    rw [msub, mzip, getD_zipWith_lt (List.zipWith fsub) _ _ j [] [] [] hmm houter]
    rw [outerOnes, getD_map_lt _ _ j none [] hlg]
    have hrow : (mmap sdQ).getD j [] = vmap (sdQ.getD j []) := by
      rw [mmap]
      exact getD_map_lt vmap sdQ j [] [] hj
    rw [hrow, hgval, hw, vmap, zipWith_fsub_some_replicate, List.map_map]
    rw [show ((fun x : F => fmul x x) ∘ (fun x : ℚ =>
        some (x - (tauQ * ((sdQ.getD j []).length : ℚ) * ghatQ.getD j 0 + dq * gbarQ) /
          (tauQ * ((sdQ.getD j []).length : ℚ) + dq)))) = (fun x : ℚ =>
        some ((x - (tauQ * ((sdQ.getD j []).length : ℚ) * ghatQ.getD j 0 + dq * gbarQ) /
          (tauQ * ((sdQ.getD j []).length : ℚ) + dq)) *
          (x - (tauQ * ((sdQ.getD j []).length : ℚ) * ghatQ.getD j 0 + dq * gbarQ) /
          (tauQ * ((sdQ.getD j []).length : ℚ) + dq))))
      from funext (fun x => fmul_some _ _)]
    rw [show (fun x : ℚ =>
        some ((x - (tauQ * ((sdQ.getD j []).length : ℚ) * ghatQ.getD j 0 + dq * gbarQ) /
          (tauQ * ((sdQ.getD j []).length : ℚ) + dq)) *
          (x - (tauQ * ((sdQ.getD j []).length : ℚ) * ghatQ.getD j 0 + dq * gbarQ) /
          (tauQ * ((sdQ.getD j []).length : ℚ) + dq)))) = some ∘ (fun x : ℚ =>
        ((x - (tauQ * ((sdQ.getD j []).length : ℚ) * ghatQ.getD j 0 + dq * gbarQ) /
          (tauQ * ((sdQ.getD j []).length : ℚ) + dq)) *
          (x - (tauQ * ((sdQ.getD j []).length : ℚ) * ghatQ.getD j 0 + dq * gbarQ) /
          (tauQ * ((sdQ.getD j []).length : ℚ) + dq)))) from rfl]
    rw [← List.map_map, fsum_map_some]
  rw [hs2, postvar_s, fmul_some, mkRat_one_two, qdiv_eq, fadd_some, fadd_some,
    fsub_some, fdiv_some, if_neg hden2]

/-- Witness for `C1_amended_update_rule` at the concrete input of `sdC1`,
iteration `k = 1`, feature `j = 0`, `delta_old = 2`. -/
theorem C1_amended_witness :
    (solver_iter (mmap [[mkRat 2 3, mkRat 2 3]]) (vmap [1]) (vmap [1]) (some 0) (some 1)
        (some 1) (some 2) 2).1.getD 0 none =
      some ((1 * ((([[mkRat 2 3, mkRat 2 3]] : List (List ℚ)).getD 0 []).length : ℚ) *
          ([(1 : ℚ)].getD 0 0) + 2 * 0) /
        (1 * ((([[mkRat 2 3, mkRat 2 3]] : List (List ℚ)).getD 0 []).length : ℚ) + 2))
    ∧ (solver_iter (mmap [[mkRat 2 3, mkRat 2 3]]) (vmap [1]) (vmap [1]) (some 0) (some 1)
        (some 1) (some 2) 2).2.getD 0 none =
      some ((1/2 * ((([[mkRat 2 3, mkRat 2 3]] : List (List ℚ)).getD 0 []).map (fun x =>
          (x - (1 * ((([[mkRat 2 3, mkRat 2 3]] : List (List ℚ)).getD 0 []).length : ℚ) *
              ([(1 : ℚ)].getD 0 0) + 2 * 0) /
            (1 * ((([[mkRat 2 3, mkRat 2 3]] : List (List ℚ)).getD 0 []).length : ℚ) + 2)) *
          (x - (1 * ((([[mkRat 2 3, mkRat 2 3]] : List (List ℚ)).getD 0 []).length : ℚ) *
              ([(1 : ℚ)].getD 0 0) + 2 * 0) /
            (1 * ((([[mkRat 2 3, mkRat 2 3]] : List (List ℚ)).getD 0 []).length : ℚ) + 2)))).sum + 2) /
        (((([[mkRat 2 3, mkRat 2 3]] : List (List ℚ)).getD 0 []).length : ℚ) / 2 + 1 - 1)) :=
  C1_amended_update_rule [[mkRat 2 3, mkRat 2 3]] [1] [1] 0 1 1 2 1 0 2
    (by decide) (by decide) (by decide) (by decide) (by norm_num) (by norm_num)

/-! ### Claim C2 -/

theorem fgt_true_iff (c : F) (t : ℚ) :
    fgt c (some t) = true ↔ ∃ q : ℚ, c = some q ∧ t < q := by
  cases c with
  | none => simp [fgt]
  | some q => simp [fgt]

theorem fgt_false_iff (c : F) (t : ℚ) :
    fgt c (some t) = false ↔ (∃ q : ℚ, c = some q ∧ q ≤ t) ∨ c = none := by
  cases c with
  | none => simp [fgt]
  | some q => simp [fgt, not_lt]

/-- The loop of `_iteration_solver`, started at the `k`-th iterate, returns
within `fuel` body executions exactly when the termination test first fails
after some further `m < fuel` executions; the returned pair is the iterate
computed by the last body execution. -/
theorem iteration_solver_go_iff (sd : Mat) (gamma_hat delta_hat : List F)
    (gamma_bar tau_2 a_prior b_prior : F) (conv : ℚ) (fuel k : ℕ)
    (out : List F × List F) :
    iteration_solver_go sd gamma_hat gamma_bar tau_2 a_prior b_prior (nvec sd) conv fuel
        (solver_iter sd gamma_hat delta_hat gamma_bar tau_2 a_prior b_prior k).1
        (solver_iter sd gamma_hat delta_hat gamma_bar tau_2 a_prior b_prior k).2 = some out ↔
      ∃ m, m < fuel
        ∧ (∀ i, i < m →
            fgt (solver_change sd gamma_hat delta_hat gamma_bar tau_2 a_prior b_prior (k+i))
              (some conv) = true)
        ∧ fgt (solver_change sd gamma_hat delta_hat gamma_bar tau_2 a_prior b_prior (k+m))
            (some conv) = false
        ∧ out = solver_iter sd gamma_hat delta_hat gamma_bar tau_2 a_prior b_prior (k+m+1) := by
  induction fuel generalizing k with
  | zero =>
    constructor
    · intro h
      exact absurd h (by simp [iteration_solver_go])
    · rintro ⟨m, hm, -⟩
      omega
  | succ fuel ih =>
    have hunfold : iteration_solver_go sd gamma_hat gamma_bar tau_2 a_prior b_prior
        (nvec sd) conv (fuel+1)
        (solver_iter sd gamma_hat delta_hat gamma_bar tau_2 a_prior b_prior k).1
        (solver_iter sd gamma_hat delta_hat gamma_bar tau_2 a_prior b_prior k).2 =
        if fgt (solver_change sd gamma_hat delta_hat gamma_bar tau_2 a_prior b_prior k)
            (some conv) = true then
          iteration_solver_go sd gamma_hat gamma_bar tau_2 a_prior b_prior (nvec sd) conv fuel
            (solver_iter sd gamma_hat delta_hat gamma_bar tau_2 a_prior b_prior (k+1)).1
            (solver_iter sd gamma_hat delta_hat gamma_bar tau_2 a_prior b_prior (k+1)).2
        else some (solver_iter sd gamma_hat delta_hat gamma_bar tau_2 a_prior b_prior (k+1)) := by
      rfl
    by_cases hch : fgt (solver_change sd gamma_hat delta_hat gamma_bar tau_2 a_prior b_prior k)
        (some conv) = true
    · rw [hunfold, if_pos hch, ih (k+1)]
      constructor
      · rintro ⟨m, hm, hall, hend, hout⟩
        refine ⟨m+1, by omega, ?_, ?_, ?_⟩
        · intro i hi
          cases i with
          | zero => exact hch
          | succ i =>
            rw [show k + (i+1) = k+1+i from by omega]
            exact hall i (by omega)
        · rw [show k + (m+1) = k+1+m from by omega]
          exact hend
        · rw [show k + (m+1) + 1 = k+1+m+1 from by omega]
          exact hout
      · rintro ⟨m, hm, hall, hend, hout⟩
        cases m with
        | zero =>
          rw [show k + 0 = k from by omega] at hend
          rw [hend] at hch
          exact absurd hch (by simp)
        | succ m =>
          refine ⟨m, by omega, ?_, ?_, ?_⟩
          · intro i hi
            rw [show k+1+i = k + (i+1) from by omega]
            exact hall (i+1) (by omega)
          · rw [show k+1+m = k + (m+1) from by omega]
            exact hend
          · rw [show k+1+m+1 = k + (m+1) + 1 from by omega]
            exact hout
    · have hch2 : fgt (solver_change sd gamma_hat delta_hat gamma_bar tau_2 a_prior b_prior k)
          (some conv) = false := by
        cases h : fgt (solver_change sd gamma_hat delta_hat gamma_bar tau_2 a_prior b_prior k)
            (some conv)
        · rfl
        · exact absurd h hch
      rw [hunfold, if_neg hch]
      constructor
      · intro h
        have hout : out = solver_iter sd gamma_hat delta_hat gamma_bar tau_2 a_prior b_prior (k+1) := by
          injection h with h2
          exact h2.symm
        exact ⟨0, by omega, by omega, by rw [show k + 0 = k from by omega]; exact hch2,
          by rw [show k + 0 + 1 = k + 1 from by omega]; exact hout⟩
      · rintro ⟨m, hm, hall, hend, hout⟩
        cases m with
        | zero =>
          rw [show k + 0 + 1 = k + 1 from by omega] at hout
          rw [hout]
        | succ m =>
          have := hall 0 (by omega)
          rw [show k + 0 = k from by omega] at this
          rw [this] at hch2
          exact absurd hch2 (by simp)

/-- Extended float for the standalone analysis of `_iteration_solver`: the
refinement of `F` that separates the two kinds of non-finite IEEE values.
`XF.fin q` is the finite value `q`; `XF.pinf`/`XF.ninf` are the signed
infinities, produced by dividing a nonzero value by zero and ordered above
resp. below every finite value by comparisons; `XF.nan` is NaN, produced by
`0/0`, `inf - inf`, `0 * inf` and `inf/inf`, absorbing in arithmetic, with
every comparison involving it false.  Zeros are unsigned (`+0`), matching the
solver's reachable inputs, so the sign of an infinity is the sign of the
dividend. -/
inductive XF : Type
  | fin : ℚ → XF
  | pinf : XF
  | ninf : XF
  | nan : XF
deriving DecidableEq

/-- Extended-float negation. -/
def xneg : XF → XF
  | XF.fin q => XF.fin (qneg q)
  | XF.pinf => XF.ninf
  | XF.ninf => XF.pinf
  | XF.nan => XF.nan

/-- Extended-float addition: `inf + (-inf)` is NaN, infinities otherwise
dominate, NaN absorbs. -/
def xadd : XF → XF → XF
  | XF.nan, _ => XF.nan
  | _, XF.nan => XF.nan
  | XF.pinf, XF.ninf => XF.nan
  | XF.ninf, XF.pinf => XF.nan
  | XF.pinf, _ => XF.pinf
  | _, XF.pinf => XF.pinf
  | XF.ninf, _ => XF.ninf
  | _, XF.ninf => XF.ninf
  | XF.fin a, XF.fin b => XF.fin (qadd a b)

/-- Extended-float subtraction (addition of the negation, as in IEEE). -/
def xsub (a b : XF) : XF := xadd a (xneg b)

/-- Extended-float multiplication: `0 * inf` is NaN, otherwise infinities
carry the product sign, NaN absorbs. -/
def xmul : XF → XF → XF
  | XF.nan, _ => XF.nan
  | _, XF.nan => XF.nan
  | XF.pinf, XF.pinf => XF.pinf
  | XF.pinf, XF.ninf => XF.ninf
  | XF.ninf, XF.pinf => XF.ninf
  | XF.ninf, XF.ninf => XF.pinf
  | XF.pinf, XF.fin b => if b = 0 then XF.nan else if 0 < b then XF.pinf else XF.ninf
  | XF.fin a, XF.pinf => if a = 0 then XF.nan else if 0 < a then XF.pinf else XF.ninf
  | XF.ninf, XF.fin b => if b = 0 then XF.nan else if 0 < b then XF.ninf else XF.pinf
  | XF.fin a, XF.ninf => if a = 0 then XF.nan else if 0 < a then XF.ninf else XF.pinf
  | XF.fin a, XF.fin b => XF.fin (qmul a b)

/-- Extended-float division: a nonzero value over zero is a signed infinity
(numpy emits a `RuntimeWarning`, no exception), `0/0` and `inf/inf` are NaN,
a finite value over an infinity is zero, NaN absorbs. -/
def xdiv : XF → XF → XF
  | XF.nan, _ => XF.nan
  | _, XF.nan => XF.nan
  | XF.pinf, XF.pinf => XF.nan
  | XF.pinf, XF.ninf => XF.nan
  | XF.ninf, XF.pinf => XF.nan
  | XF.ninf, XF.ninf => XF.nan
  | XF.pinf, XF.fin b => if 0 ≤ b then XF.pinf else XF.ninf
  | XF.ninf, XF.fin b => if 0 ≤ b then XF.ninf else XF.pinf
  | XF.fin _, XF.pinf => XF.fin 0
  | XF.fin _, XF.ninf => XF.fin 0
  | XF.fin a, XF.fin b =>
    if b = 0 then (if a = 0 then XF.nan else if 0 < a then XF.pinf else XF.ninf)
    else XF.fin (qdiv a b)

/-- Extended-float absolute value. -/
def xabs : XF → XF
  | XF.fin q => XF.fin (qabs q)
  | XF.pinf => XF.pinf
  | XF.ninf => XF.pinf
  | XF.nan => XF.nan

/-- Extended-float strict greater-than: any comparison involving NaN is false;
`+inf` is above and `-inf` below every finite value. -/
def xgt : XF → XF → Bool
  | XF.nan, _ => false
  | _, XF.nan => false
  | XF.pinf, XF.pinf => false
  | XF.pinf, _ => true
  | XF.ninf, _ => false
  | XF.fin _, XF.pinf => false
  | XF.fin _, XF.ninf => true
  | XF.fin a, XF.fin b => decide (b < a)

/-- numpy `isnan` on the extended floats: false on the infinities. -/
def xisnan : XF → Bool
  | XF.nan => true
  | _ => false

/-- Sum of an extended-float vector. -/
def xsum (l : List XF) : XF := l.foldr xadd (XF.fin 0)

/-- numpy NaN-propagating two-argument maximum on extended floats. -/
def xmax2 : XF → XF → XF
  | XF.nan, _ => XF.nan
  | _, XF.nan => XF.nan
  | XF.pinf, _ => XF.pinf
  | _, XF.pinf => XF.pinf
  | XF.ninf, b => b
  | a, XF.ninf => a
  | XF.fin a, XF.fin b => XF.fin (if a < b then b else a)

/-- numpy `ndarray.max()` of a (nonempty) extended-float vector. -/
def npmaxX : List XF → XF
  | [] => XF.nan
  | x :: xs => xs.foldl xmax2 x

/-- Python builtin two-argument `max` on extended floats: returns the second
argument only if it compares strictly greater. -/
def pymaxX (a b : XF) : XF := if xgt b a then b else a

/-- Row width of an extended-float matrix. -/
def widthX (m : List (List XF)) : ℕ := (m.headD []).length

/-- `n = (1 - np.isnan(standardized_data)).sum(axis=1)` on extended floats;
infinite entries count as present. -/
def nvecX (sd : List (List XF)) : List ℚ :=
  sd.map (fun r => ((r.countP (fun x => !(xisnan x)) : ℕ) : ℚ))

/-- Scalar `postmean` over extended floats. -/
def postmeanX_s (tau_2 : XF) (n : ℚ) (gamma_hat gamma_bar delta_star : XF) : XF :=
  xdiv (xadd (xmul (xmul tau_2 (XF.fin n)) gamma_hat) (xmul delta_star gamma_bar))
    (xadd (xmul tau_2 (XF.fin n)) delta_star)

/-- Scalar `postvar` over extended floats. -/
def postvarX_s (sum_2 : XF) (n : ℚ) (a_prior b_prior : XF) : XF :=
  xdiv (xadd (xmul (XF.fin (mkRat 1 2)) sum_2) b_prior)
    (xsub (xadd (XF.fin (qdiv n 2)) a_prior) (XF.fin 1))

/-- Vectorised `postmean` over extended floats. -/
def postmeanVX (tau_2 gamma_bar : XF) (ns : List ℚ) (gamma_hat dold : List XF) : List XF :=
  zipWith3 (fun n g d => postmeanX_s tau_2 n g gamma_bar d) ns gamma_hat dold

/-- `sum_2 = ((sd - gamma_new ⊗ ones) ** 2).sum(axis=1)` over extended
floats. -/
def sum2VX (sd : List (List XF)) (gnew : List XF) : List XF :=
  (List.zipWith (List.zipWith xsub) sd (gnew.map (fun x => List.replicate (widthX sd) x))).map
    (fun r => xsum (r.map (fun x => xmul x x)))

/-- Vectorised `postvar` over extended floats. -/
def postvarVX (sum2 : List XF) (ns : List ℚ) (a_prior b_prior : XF) : List XF :=
  List.zipWith (fun s n => postvarX_s s n a_prior b_prior) sum2 ns

/-- Per-feature relative change `abs(new - old) / old` over extended floats:
an exactly-zero `old` entry with a nonzero update gives `+inf`. -/
def relChangeVX (newV oldV : List XF) : List XF :=
  List.zipWith (fun a b => xdiv (xabs (xsub a b)) b) newV oldV

/-- The `change` of one loop body over extended floats. -/
def changeOfX (gnew gold dnew dold : List XF) : XF :=
  pymaxX (npmaxX (relChangeVX gnew gold)) (npmaxX (relChangeVX dnew dold))

/-- The `while change > convergence` loop of `_iteration_solver` over extended
floats, with explicit fuel; `none` models not having terminated within `fuel`
iterations (the source loop has no cap). -/
def iteration_solverX_go (sd : List (List XF)) (gamma_hat : List XF)
    (gamma_bar tau_2 a_prior b_prior : XF) (ns : List ℚ) (conv : ℚ) :
    ℕ → List XF → List XF → Option (List XF × List XF)
  | 0, _, _ => none
  | fuel+1, gold, dold =>
    let gnew := postmeanVX tau_2 gamma_bar ns gamma_hat dold
    let dnew := postvarVX (sum2VX sd gnew) ns a_prior b_prior
    let change := changeOfX gnew gold dnew dold
    if xgt change (XF.fin conv) then
      iteration_solverX_go sd gamma_hat gamma_bar tau_2 a_prior b_prior ns conv fuel gnew dnew
    else some (gnew, dnew)

/-- `_iteration_solver` over extended floats with the default
`convergence=0.0001`. -/
def iteration_solverX (fuel : ℕ) (sd : List (List XF)) (gamma_hat delta_hat : List XF)
    (gamma_bar tau_2 a_prior b_prior : XF) : Option (List XF × List XF) :=
  iteration_solverX_go sd gamma_hat gamma_bar tau_2 a_prior b_prior (nvecX sd)
    convergenceDefault fuel gamma_hat delta_hat

/-- The `(gamma_hat_old, delta_hat_old)` pair after `k` executions of the loop
body, over extended floats (specification device). -/
def solver_iterX (sd : List (List XF)) (gamma_hat delta_hat : List XF)
    (gamma_bar tau_2 a_prior b_prior : XF) : ℕ → List XF × List XF
  | 0 => (gamma_hat, delta_hat)
  | k+1 =>
    let p := solver_iterX sd gamma_hat delta_hat gamma_bar tau_2 a_prior b_prior k
    let gnew := postmeanVX tau_2 gamma_bar (nvecX sd) gamma_hat p.2
    (gnew, postvarVX (sum2VX sd gnew) (nvecX sd) a_prior b_prior)

/-- The `change` value computed in the `k+1`-st execution of the loop body,
over extended floats. -/
def solver_changeX (sd : List (List XF)) (gamma_hat delta_hat : List XF)
    (gamma_bar tau_2 a_prior b_prior : XF) (k : ℕ) : XF :=
  changeOfX
    (solver_iterX sd gamma_hat delta_hat gamma_bar tau_2 a_prior b_prior (k+1)).1
    (solver_iterX sd gamma_hat delta_hat gamma_bar tau_2 a_prior b_prior k).1
    (solver_iterX sd gamma_hat delta_hat gamma_bar tau_2 a_prior b_prior (k+1)).2
    (solver_iterX sd gamma_hat delta_hat gamma_bar tau_2 a_prior b_prior k).2

theorem xgt_true_iffX (c : XF) (t : ℚ) :
    xgt c (XF.fin t) = true ↔ (∃ q : ℚ, c = XF.fin q ∧ t < q) ∨ c = XF.pinf := by
  cases c <;> simp [xgt]

theorem xgt_false_iffX (c : XF) (t : ℚ) :
    xgt c (XF.fin t) = false ↔
      (∃ q : ℚ, c = XF.fin q ∧ q ≤ t) ∨ c = XF.nan ∨ c = XF.ninf := by
  cases c <;> simp [xgt, not_lt]

/-- The extended-float loop, started at the `k`-th iterate, returns within
`fuel` body executions exactly when the guard `change > convergence` first
fails after some further `m < fuel` executions; the returned pair is the
iterate computed by the last body execution. -/
theorem iteration_solverX_go_iff (sd : List (List XF)) (gamma_hat delta_hat : List XF)
    (gamma_bar tau_2 a_prior b_prior : XF) (conv : ℚ) (fuel k : ℕ)
    (out : List XF × List XF) :
    iteration_solverX_go sd gamma_hat gamma_bar tau_2 a_prior b_prior (nvecX sd) conv fuel
        (solver_iterX sd gamma_hat delta_hat gamma_bar tau_2 a_prior b_prior k).1
        (solver_iterX sd gamma_hat delta_hat gamma_bar tau_2 a_prior b_prior k).2 = some out ↔
      ∃ m, m < fuel
        ∧ (∀ i, i < m →
            xgt (solver_changeX sd gamma_hat delta_hat gamma_bar tau_2 a_prior b_prior (k+i))
              (XF.fin conv) = true)
        ∧ xgt (solver_changeX sd gamma_hat delta_hat gamma_bar tau_2 a_prior b_prior (k+m))
            (XF.fin conv) = false
        ∧ out = solver_iterX sd gamma_hat delta_hat gamma_bar tau_2 a_prior b_prior (k+m+1) := by
  induction fuel generalizing k with
  | zero =>
    constructor
    · intro h
      exact absurd h (by simp [iteration_solverX_go])
    · rintro ⟨m, hm, -⟩
      omega
  | succ fuel ih =>
    have hunfold : iteration_solverX_go sd gamma_hat gamma_bar tau_2 a_prior b_prior
        (nvecX sd) conv (fuel+1)
        (solver_iterX sd gamma_hat delta_hat gamma_bar tau_2 a_prior b_prior k).1
        (solver_iterX sd gamma_hat delta_hat gamma_bar tau_2 a_prior b_prior k).2 =
        if xgt (solver_changeX sd gamma_hat delta_hat gamma_bar tau_2 a_prior b_prior k)
            (XF.fin conv) = true then
          iteration_solverX_go sd gamma_hat gamma_bar tau_2 a_prior b_prior (nvecX sd) conv fuel
            (solver_iterX sd gamma_hat delta_hat gamma_bar tau_2 a_prior b_prior (k+1)).1
            (solver_iterX sd gamma_hat delta_hat gamma_bar tau_2 a_prior b_prior (k+1)).2
        else some (solver_iterX sd gamma_hat delta_hat gamma_bar tau_2 a_prior b_prior (k+1)) := by
      rfl
    by_cases hch : xgt (solver_changeX sd gamma_hat delta_hat gamma_bar tau_2 a_prior b_prior k)
        (XF.fin conv) = true
    · rw [hunfold, if_pos hch, ih (k+1)]
      constructor
      · rintro ⟨m, hm, hall, hend, hout⟩
        refine ⟨m+1, by omega, ?_, ?_, ?_⟩
        · intro i hi
          cases i with
          | zero => exact hch
          | succ i =>
            rw [show k + (i+1) = k+1+i from by omega]
            exact hall i (by omega)
        · rw [show k + (m+1) = k+1+m from by omega]
          exact hend
        · rw [show k + (m+1) + 1 = k+1+m+1 from by omega]
          exact hout
      · rintro ⟨m, hm, hall, hend, hout⟩
        cases m with
        | zero =>
          rw [show k + 0 = k from by omega] at hend
          rw [hend] at hch
          exact absurd hch (by simp)
        | succ m =>
          refine ⟨m, by omega, ?_, ?_, ?_⟩
          · intro i hi
            rw [show k+1+i = k + (i+1) from by omega]
            exact hall (i+1) (by omega)
          · rw [show k+1+m = k + (m+1) from by omega]
            exact hend
          · rw [show k+1+m+1 = k + (m+1) + 1 from by omega]
            exact hout
    · have hch2 : xgt (solver_changeX sd gamma_hat delta_hat gamma_bar tau_2 a_prior b_prior k)
          (XF.fin conv) = false := by
        cases h : xgt (solver_changeX sd gamma_hat delta_hat gamma_bar tau_2 a_prior b_prior k)
            (XF.fin conv)
        · rfl
        · exact absurd h hch
      rw [hunfold, if_neg hch]
      constructor
      · intro h
        have hout : out = solver_iterX sd gamma_hat delta_hat gamma_bar tau_2 a_prior b_prior (k+1) := by
          injection h with h2
          exact h2.symm
        exact ⟨0, by omega, by omega, by rw [show k + 0 = k from by omega]; exact hch2,
          by rw [show k + 0 + 1 = k + 1 from by omega]; exact hout⟩
      · rintro ⟨m, hm, hall, hend, hout⟩
        cases m with
        | zero =>
          rw [show k + 0 + 1 = k + 1 from by omega] at hout
          rw [hout]
        | succ m =>
          have := hall 0 (by omega)
          rw [show k + 0 = k from by omega] at this
          rw [this] at hch2
          exact absurd hch2 (by simp)

/-- C2, amended.  The `while` loop of `_iteration_solver` imposes no iteration
cap: started at the initial estimates it returns (within any sufficient fuel)
exactly when the guard `change > convergence` first fails, `change` being the
maximum over features of
`max(abs(gamma_new - gamma_old) / gamma_old, abs(delta_new - delta_old) / delta_old)`
against the default relative tolerance `1/10000` (= 1e-4).  With the signed
infinities modelled, the guard fails exactly when the change is a finite value
at most the tolerance, or NaN (e.g. in the presence of missing data, the case
the counterexample exhibits), or `-inf` (unreachable, listed for
completeness); a `+inf` change — a previous-iterate entry exactly zero with a
nonzero update — satisfies the guard and keeps the loop running.  The returned
vectors are the ones computed by the final loop body. -/
theorem C2_amended_termination (fuel : ℕ) (sd : List (List XF))
    (gamma_hat delta_hat : List XF) (gamma_bar tau_2 a_prior b_prior : XF)
    (out : List XF × List XF) :
    iteration_solverX fuel sd gamma_hat delta_hat gamma_bar tau_2 a_prior b_prior = some out ↔
      ∃ k, k < fuel
        ∧ (∀ i, i < k →
            (∃ q : ℚ,
              solver_changeX sd gamma_hat delta_hat gamma_bar tau_2 a_prior b_prior i = XF.fin q
              ∧ mkRat 1 10000 < q)
            ∨ solver_changeX sd gamma_hat delta_hat gamma_bar tau_2 a_prior b_prior i = XF.pinf)
        ∧ ((∃ q : ℚ,
              solver_changeX sd gamma_hat delta_hat gamma_bar tau_2 a_prior b_prior k = XF.fin q
              ∧ q ≤ mkRat 1 10000)
            ∨ solver_changeX sd gamma_hat delta_hat gamma_bar tau_2 a_prior b_prior k = XF.nan
            ∨ solver_changeX sd gamma_hat delta_hat gamma_bar tau_2 a_prior b_prior k = XF.ninf)
        ∧ out = solver_iterX sd gamma_hat delta_hat gamma_bar tau_2 a_prior b_prior (k+1) := by
  have h0 : iteration_solverX fuel sd gamma_hat delta_hat gamma_bar tau_2 a_prior b_prior =
      iteration_solverX_go sd gamma_hat gamma_bar tau_2 a_prior b_prior (nvecX sd)
        convergenceDefault fuel
        (solver_iterX sd gamma_hat delta_hat gamma_bar tau_2 a_prior b_prior 0).1
        (solver_iterX sd gamma_hat delta_hat gamma_bar tau_2 a_prior b_prior 0).2 := rfl
  rw [h0, iteration_solverX_go_iff]
  constructor
  · rintro ⟨m, hm, hall, hend, hout⟩
    refine ⟨m, hm, ?_, ?_, ?_⟩
    · intro i hi
      have := hall i hi
      rw [show (0:ℕ) + i = i from by omega] at this
      exact (xgt_true_iffX _ _).1 this
    · have := hend
      rw [show (0:ℕ) + m = m from by omega] at this
      exact (xgt_false_iffX _ _).1 this
    · rw [show (0:ℕ) + m + 1 = m + 1 from by omega] at hout
      exact hout
  · rintro ⟨m, hm, hall, hend, hout⟩
    refine ⟨m, hm, ?_, ?_, ?_⟩
    · intro i hi
      rw [show (0:ℕ) + i = i from by omega]
      exact (xgt_true_iffX _ _).2 (hall i hi)
    · rw [show (0:ℕ) + m = m from by omega]
      exact (xgt_false_iffX _ _).2 hend
    · rw [show (0:ℕ) + m + 1 = m + 1 from by omega]
      exact hout

/-- Solver input containing a missing (NaN) observation, used to refute the
claimed convergence criterion as stated. -/
def sdC2nan : List (List XF) := [[XF.nan, XF.fin 1]]

/-- Solver input on which the first change is `+inf`: the initial gamma entry
is exactly zero and its first update is nonzero. -/
def sdC2inf : List (List XF) := [[XF.fin 0, XF.fin 0]]

/-- C2, counterexample.  Two runs refute the claimed criterion ("terminates
exactly when the maximum falls below the tolerance").  On `sdC2nan` the loop
passes the first convergence test (the change is the finite value `1/2`, above
the tolerance) and terminates after the second body execution — yet the change
computed there is NaN, not a finite maximum that fell below the `1e-4`
tolerance.  On `sdC2inf` (initial gamma entry exactly `0`, nonzero update) the
first change is `+inf`, which certainly has not fallen below the tolerance,
and the guard keeps the loop running: with one unit of fuel the loop has not
returned. -/
theorem C2_counterexample :
    (iteration_solverX 10 sdC2nan [XF.fin 1] [XF.fin 1] (XF.fin 0) (XF.fin 1) (XF.fin 1)
        (XF.fin 1) =
      some (solver_iterX sdC2nan [XF.fin 1] [XF.fin 1] (XF.fin 0) (XF.fin 1) (XF.fin 1)
        (XF.fin 1) 2)
      ∧ xgt (solver_changeX sdC2nan [XF.fin 1] [XF.fin 1] (XF.fin 0) (XF.fin 1) (XF.fin 1)
          (XF.fin 1) 0) (XF.fin convergenceDefault) = true
      ∧ solver_changeX sdC2nan [XF.fin 1] [XF.fin 1] (XF.fin 0) (XF.fin 1) (XF.fin 1)
          (XF.fin 1) 1 = XF.nan)
    ∧ (solver_changeX sdC2inf [XF.fin 0] [XF.fin 1] (XF.fin 1) (XF.fin 1) (XF.fin 1)
          (XF.fin 1) 0 = XF.pinf
      ∧ iteration_solverX 1 sdC2inf [XF.fin 0] [XF.fin 1] (XF.fin 1) (XF.fin 1) (XF.fin 1)
          (XF.fin 1) = none) := by
  decide

/-! ### Claims C3 to C7: concrete pipeline runs -/

/-- Two samples, two features, a single site `0`. -/
def dataC4 : List (List F) := [[some 1, some 0], [some 3, some 4]]

/-- Five samples, two features; site `0` has four samples and site `1` exactly
one. -/
def dataC5 : List (List F) :=
  [[some 0, some 0], [some 2, some 4], [some 4, some 8], [some 6, some 12], [some 1, some 2]]

/-- The sites column of the `dataC5` scenario. -/
def sitesC5 : List ℚ := [0, 0, 0, 0, 1]

/-- Two samples, one site; the second feature is constant (zero pooled
variance). -/
def dataC6 : List (List F) := [[some 1, some 5], [some 3, some 5]]

/-- The design matrix of the `dataC6` fit (one site indicator column). -/
def designC6 : Mat := [[some 1], [some 1]]

/-- A state in which only `n_sites` is set, as it is when
`_standardize_across_features` runs inside `fit`. -/
def stC6 : CState := { emptyState with n_sites := some 1 }

/-- A minimal fitted state for exercising the transform-time site check:
two sites named `0` and `1`. -/
def stC3 : CState := { emptyState with n_sites := some 2, sites_names := some [0, 1] }

/-- A transform batch of two samples and one feature. -/
def dataC3 : List (List F) := [[some 1], [some 2]]

/-- C3, counterexample.  On a fitted model with sites `{0, 1}`, transforming a
batch containing the unseen site `7` raises `ValueError` with the fixed
message shown — and transforming a batch with the different unseen site `8`
raises the very same message.  The message is a constant sentence, so it does
not enumerate the unknown value(s), contrary to the claim. -/
theorem C3_counterexample :
    (transform dataC3 [0, 7] none none stC3).2 =
      Except.error (PyErr.valueError "There is a site unseen during the fit method in the data.")
    ∧ (transform dataC3 [0, 8] none none stC3).2 =
      Except.error (PyErr.valueError "There is a site unseen during the fit method in the data.") := by
  decide

/-- C3, amended.  For every fitted model (fitted without covariates) and every
transform batch that passes input validation, the presence of any site value
not seen at fit time makes `transform` fail eagerly with the fixed
`ValueError` message shown — before any design-matrix encoding, so an unseen
site is never silently encoded as all-zero.  (The message is a constant
sentence; it does not enumerate the offending value(s), which is the part of
the claim the counterexample refutes.) -/
theorem C3_amended_unseen_site (s : CState) (data : Mat) (sites : List ℚ)
    (dcov : Option (List (List ℚ))) (ccov : Option Mat) (names : List ℚ) (v : ℚ)
    (hfit : s.n_sites.isSome = true)
    (hdc : s.discrete_covariates_used = none)
    (hcc : s.continuous_covariates_used = none)
    (hnames : s.sites_names = some names)
    (hok : check_array_data data = Except.ok data)
    (hlen : data.length = sites.length)
    (hv : v ∈ sites) (hvn : v ∉ names) :
    (transform data sites dcov ccov s).2 =
      Except.error (PyErr.valueError "There is a site unseen during the fit method in the data.") := by
  have hne : sites.length ≠ 0 := by
    intro h
    rw [List.length_eq_zero] at h
    rw [h] at hv
    exact absurd hv (List.not_mem_nil v)
  have hsok : check_array_sites sites = Except.ok sites := by
    rw [check_array_sites, if_neg hne]
  have hcons : check_consistent_length data.length sites.length = Except.ok () := by
    rw [check_consistent_length, if_pos hlen]
  have hall : (uniqueSorted sites).all (fun u => decide (u ∈ names)) = false := by
    cases hb : (uniqueSorted sites).all (fun u => decide (u ∈ names)) with
    | false => rfl
    | true =>
      have := List.all_eq_true.1 hb v ((mem_uniqueSorted v sites).2 hv)
      simp at this
      exact absurd this hvn
  simp only [transform, bind_run, getSt_run, liftE_run, getAttr_run, pure_run, throw_run,
    hfit, hdc, hcc, hnames, hok, hsok, hcons, hall, Option.isSome_none, Option.isSome_some,
    if_true, if_false, Bool.false_eq_true, ite_true, ite_false]

/-- Witness for `C3_amended_unseen_site`: the concrete fitted sites `{0, 1}`
with a batch whose second sample carries the unseen site `7`. -/
theorem C3_amended_witness :
    (transform dataC3 [0, 7] none none stC3).2 =
      Except.error (PyErr.valueError "There is a site unseen during the fit method in the data.") :=
  C3_amended_unseen_site stC3 dataC3 [0, 7] none none [0, 1] 7 (by decide) (by decide)
    (by decide) (by decide) (by decide) (by decide) (by decide) (by decide)

/-- C4, counterexample.  The sites vector `[0, 0]` has exactly one distinct
value, yet `fit` completes and returns normally: the source performs no
validation of the number of distinct sites. -/
theorem C4_counterexample :
    (uniqueSorted [0, 0]).length = 1
    ∧ (fit 5 dataC4 [0, 0] none none emptyState).2 = Except.ok () := by
  decide

/-- C4, amended.  `fit` performs no check on the number of distinct sites: a
single-site input passes every check and produces a fitted model with
`n_sites = 1` (its shrunk parameters pass through the degenerate prior
formulas, leaving the delta parameters non-finite). -/
theorem C4_amended_single_site_fit :
    ((fit 5 dataC4 [0, 0] none none emptyState).1).n_sites = some 1
    ∧ ((fit 5 dataC4 [0, 0] none none emptyState).1).gamma_star = some [[some 0, some 0]]
    ∧ ((fit 5 dataC4 [0, 0] none none emptyState).1).delta_star = some [[none, none]] := by
  decide

/-- C5.  Site `1` of `sitesC5` has exactly one sample; the ddof-1 sample
variance of a single observation is non-finite (second conjunct: the
`np.var(ddof=1)` model on the singleton standardized value `-4/5` yields NaN),
yet `fit` completes without any error and stores non-finite `delta_star`
entries for both sites: there is no `InsufficientSamplesError` (no such error
exists anywhere in the source) and the undefined variance silently
propagates. -/
theorem C5_singleton_site_no_failure :
    (fit 5 dataC5 sitesC5 none none emptyState).2 = Except.ok ()
    ∧ npvar1 [some (mkRat (-4) 5)] = none
    ∧ ((fit 5 dataC5 sitesC5 none none emptyState).1).n_sites = some 2
    ∧ ((fit 5 dataC5 sitesC5 none none emptyState).1).delta_star =
        some [[none, none], [none, none]] := by
  decide

/-- C6.  The second feature of `dataC6` is constant, so its pooled variance is
zero.  `_standardize_across_features` raises nothing: it returns normally,
with the standardized row of that feature consisting of non-finite values
(0/0), and the enclosing `fit` also completes without an error.  No
`NumericDegeneracyError` is raised anywhere (no such error exists in the
source). -/
theorem C6_zero_variance_no_error :
    (standardize_across_features (tr dataC6) designC6 2 [2] true stC6).2 =
      Except.ok ([[some (-1), some 1], [none, none]], [[some 2, some 2], [some 5, some 5]])
    ∧ ((standardize_across_features (tr dataC6) designC6 2 [2] true stC6).1).var_pooled =
      some [some 1, some 0]
    ∧ (fit 5 dataC6 [0, 0] none none emptyState).2 = Except.ok () := by
  decide

/-- C7.  After a successful covariate-free `fit`, a second `fit` call crashes
inside `_reset` with `AttributeError` on `discrete_covariates_used` (that
attribute is only ever set when discrete covariates are supplied, but `_reset`
deletes it unconditionally), leaving the instance in a partial state:
`n_sites` and `sites_names` are already deleted while `beta_hat`,
`gamma_star` and the other parameters are still set.  This contradicts the
joint-reset invariant (and the comment in `_reset` itself, which asserts the
attributes are all set together), and a second fit does not succeed. -/
theorem C7_partial_state_on_refit :
    (fit 5 dataC4 [0, 0] none none emptyState).2 = Except.ok ()
    ∧ (fit 5 dataC4 [0, 0] none none ((fit 5 dataC4 [0, 0] none none emptyState).1)).2 =
        Except.error (PyErr.attributeError "discrete_covariates_used")
    ∧ ((fit 5 dataC4 [0, 0] none none ((fit 5 dataC4 [0, 0] none none emptyState).1)).1).n_sites =
        none
    ∧ ((fit 5 dataC4 [0, 0] none none ((fit 5 dataC4 [0, 0] none none emptyState).1)).1).sites_names =
        none
    ∧ ((fit 5 dataC4 [0, 0] none none ((fit 5 dataC4 [0, 0] none none emptyState).1)).1).beta_hat =
        some [[some 2, some 2]]
    ∧ ((fit 5 dataC4 [0, 0] none none ((fit 5 dataC4 [0, 0] none none emptyState).1)).1).gamma_star =
        some [[some 0, some 0]] := by
  decide

/-! ### Claim C8: transform never mutates the fitted state -/

theorem preserving_make_design_matrix_false (sites : List ℚ)
    (dcov : Option (List (List ℚ))) (ccov : Option Mat) :
    Preserving (make_design_matrix sites dcov ccov false) := by
  rw [make_design_matrix.eq_def]
  apply preserving_bind _ _ (fun s => rfl)
  intro _
  apply preserving_bind _ _ (preserving_getAttr _ _)
  intro cats
  apply preserving_bind _ _ (preserving_liftE _)
  intro sites_design
  apply preserving_bind
  · cases dcov with
    | none => exact fun s => rfl
    | some dc =>
      apply preserving_bind _ _ (fun s => rfl)
      intro _
      apply preserving_bind _ _ (preserving_getAttr _ _)
      intro encs
      exact preserving_liftE _
  · intro dblocks
    exact preserving_liftE _

theorem preserving_standardize_false (data design : Mat) (n_samples : ℕ)
    (n_samples_per_site : List ℕ) :
    Preserving (standardize_across_features data design n_samples n_samples_per_site false) := by
  rw [standardize_across_features]
  apply preserving_bind _ _ (fun s => rfl)
  intro _
  apply preserving_bind _ _ (preserving_getAttr _ _)
  intro beta
  apply preserving_bind _ _ (preserving_getAttr _ _)
  intro gm
  apply preserving_bind _ _ (preserving_getAttr _ _)
  intro vp
  apply preserving_bind _ _ (preserving_getAttr _ _)
  intro k
  exact preserving_pure _

theorem preserving_adjust_data_final (standardized_data design standardized_mean : Mat)
    (n_samples_per_site : List ℕ) (n_samples : ℕ) (idx_per_site : List (List ℕ)) :
    Preserving (adjust_data_final standardized_data design standardized_mean
      n_samples_per_site n_samples idx_per_site) := by
  rw [adjust_data_final]
  apply preserving_bind _ _ (preserving_getAttr _ _)
  intro n_sites
  apply preserving_bind _ _ (preserving_getAttr _ _)
  intro var_pooled
  apply preserving_bind _ _ (preserving_getAttr _ _)
  intro gamma_star
  apply preserving_bind _ _ (preserving_getAttr _ _)
  intro delta_star
  exact preserving_pure _

theorem transform_preserving (data : Mat) (sites : List ℚ)
    (dcov : Option (List (List ℚ))) (ccov : Option Mat) :
    Preserving (transform data sites dcov ccov) := by
  rw [transform.eq_def]
  apply preserving_bind _ _ preserving_getSt
  intro s0
  apply preserving_bind
  · exact preserving_ite _ _ _ (preserving_pure _) (preserving_throw _)
  intro _
  apply preserving_bind _ _ (preserving_liftE _)
  intro data2
  apply preserving_bind _ _ (preserving_liftE _)
  intro sites2
  apply preserving_bind _ _ (preserving_liftE _)
  intro _
  apply preserving_bind
  · apply preserving_ite
    · cases dcov with
      | none => exact preserving_throw _
      | some dc =>
        apply preserving_bind _ _ (preserving_liftE _)
        intro dc2
        exact preserving_pure _
    · exact preserving_pure _
  intro dcov2
  apply preserving_bind
  · apply preserving_ite
    · cases ccov with
      | none => exact preserving_throw _
      | some cc =>
        apply preserving_bind _ _ (preserving_liftE _)
        intro cc2
        exact preserving_pure _
    · exact preserving_pure _
  intro ccov2
  apply preserving_bind _ _ (preserving_getAttr _ _)
  intro names
  apply preserving_bind
  · exact preserving_ite _ _ _ (preserving_pure _) (preserving_throw _)
  intro _
  apply preserving_bind _ _ (preserving_make_design_matrix_false _ _ _)
  intro design
  apply preserving_bind _ _ (preserving_standardize_false _ _ _ _)
  intro std
  apply preserving_bind _ _ (preserving_adjust_data_final _ _ _ _ _ _)
  intro bayes
  exact preserving_pure _

/-- C8.  `transform` never mutates the instance state: whatever the stored
model parameters (`n_sites`, `sites_names`, the encoders, `beta_hat`,
`grand_mean`, `var_pooled`, `gamma_star`, `delta_star` — that is, the whole
`CState`) and whatever the inputs, the state after a `transform` call is
identical to the state before it, whether the call returns a matrix or raises. -/
theorem C8_transform_never_mutates (data : Mat) (sites : List ℚ)
    (dcov : Option (List (List ℚ))) (ccov : Option Mat) (s : CState) :
    (transform data sites dcov ccov s).1 = s :=
  transform_preserving data sites dcov ccov s

/-! ### Shape bookkeeping for claim C10 -/

/-- `Dims m r c`: the matrix has `r` rows, each of length `c`. -/
def Dims (m : Mat) (r c : ℕ) : Prop := m.length = r ∧ ∀ row ∈ m, row.length = c

theorem width_of_dims {m : Mat} {r c : ℕ} (h : Dims m r c) (hr : 0 < r) :
    width m = c := by
  obtain ⟨h1, h2⟩ := h
  rw [width]
  cases m with
  | nil => simp at h1; omega
  | cons x xs => exact h2 x (List.mem_cons_self x xs)

theorem dims_tr {m : Mat} {r c : ℕ} (h : Dims m r c) (hr : 0 < r) :
    Dims (tr m) c r := by
  constructor
  · rw [tr, List.length_map, List.length_range, width_of_dims h hr]
  · intro row hrow
    rw [tr] at hrow
    obtain ⟨i, _, hi⟩ := List.mem_map.1 hrow
    rw [← hi, colAt, List.length_map]
    exact h.1

theorem dims_matMul {a b : Mat} {r c2 c3 : ℕ} (ha : a.length = r)
    (hb : Dims b c2 c3) (h2 : 0 < c2) : Dims (matMul a b) r c3 := by
  constructor
  · rw [matMul, List.length_map, ha]
  · intro row hrow
    rw [matMul] at hrow
    obtain ⟨ra, _, hi⟩ := List.mem_map.1 hrow
    rw [← hi, List.length_map, tr, List.length_map, List.length_range,
      width_of_dims hb h2]

theorem mem_zipWith_length {f : F → F → F} {c : ℕ} :
    ∀ {a b : Mat}, (∀ r ∈ a, r.length = c) → (∀ r ∈ b, r.length = c) →
      ∀ row ∈ List.zipWith (List.zipWith f) a b, row.length = c := by
  intro a
  induction a with
  | nil => intro b _ _ row hrow; simp at hrow
  | cons x xs ih =>
    intro b ha hb row hrow
    cases b with
    | nil => simp at hrow
    | cons y ys =>
      rw [List.zipWith_cons_cons] at hrow
      rcases List.mem_cons.1 hrow with h | h
      · rw [h, List.length_zipWith, ha x (List.mem_cons_self x xs),
          hb y (List.mem_cons_self y ys)]
        omega
      · exact ih (fun r hr => ha r (List.mem_cons_of_mem x hr))
          (fun r hr => hb r (List.mem_cons_of_mem y hr)) row h

theorem dims_mzip {f : F → F → F} {a b : Mat} {r c : ℕ}
    (ha : Dims a r c) (hb : Dims b r c) : Dims (mzip f a b) r c := by
  constructor
  · rw [mzip, List.length_zipWith, ha.1, hb.1]
    omega
  · exact mem_zipWith_length ha.2 hb.2

theorem dims_outerOnes {v : List F} {r : ℕ} (h : v.length = r) (n : ℕ) :
    Dims (outerOnes v n) r n := by
  constructor
  · rw [outerOnes, List.length_map, h]
  · intro row hrow
    rw [outerOnes] at hrow
    obtain ⟨x, _, hi⟩ := List.mem_map.1 hrow
    rw [← hi, List.length_replicate]

theorem dims_msq {m : Mat} {r c : ℕ} (h : Dims m r c) : Dims (msq m) r c := by
  constructor
  · rw [msq, List.length_map, h.1]
  · intro row hrow
    rw [msq] at hrow
    obtain ⟨x, hx, hi⟩ := List.mem_map.1 hrow
    rw [← hi, List.length_map]
    exact h.2 x hx

theorem dims_mdivE {a b : Mat} {r c : ℕ} (ha : Dims a r c) (hb : Dims b r c) :
    Dims (mdivE a b) r c := dims_mzip ha hb

theorem dims_msub {a b : Mat} {r c : ℕ} (ha : Dims a r c) (hb : Dims b r c) :
    Dims (msub a b) r c := dims_mzip ha hb

theorem dims_madd {a b : Mat} {r c : ℕ} (ha : Dims a r c) (hb : Dims b r c) :
    Dims (madd a b) r c := dims_mzip ha hb

theorem dims_mmulE {a b : Mat} {r c : ℕ} (ha : Dims a r c) (hb : Dims b r c) :
    Dims (mmulE a b) r c := dims_mzip ha hb

theorem zeroFirst_length (k : ℕ) (r : List F) : (zeroFirst k r).length = r.length := by
  induction k generalizing r with
  | zero => rfl
  | succ k ih =>
    cases r with
    | nil => rfl
    | cons x xs => rw [zeroFirst, List.length_cons, List.length_cons, ih]

theorem dims_zeroFirstCols {m : Mat} {r c : ℕ} (h : Dims m r c) (k : ℕ) :
    Dims (zeroFirstCols k m) r c := by
  constructor
  · rw [zeroFirstCols, List.length_map, h.1]
  · intro row hrow
    rw [zeroFirstCols] at hrow
    obtain ⟨x, hx, hi⟩ := List.mem_map.1 hrow
    rw [← hi, zeroFirst_length]
    exact h.2 x hx

theorem dims_takeCols {m : Mat} {r c : ℕ} (h : Dims m r c) (k : ℕ) (hk : k ≤ c) :
    Dims (takeCols k m) r k := by
  constructor
  · rw [takeCols, List.length_map, h.1]
  · intro row hrow
    rw [takeCols] at hrow
    obtain ⟨x, hx, hi⟩ := List.mem_map.1 hrow
    rw [← hi, List.length_take, h.2 x hx]
    omega

theorem dims_selectCols {m : Mat} {r c : ℕ} (h : Dims m r c) (idxs : List ℕ) :
    Dims (selectCols m idxs) r idxs.length := by
  constructor
  · rw [selectCols, List.length_map, h.1]
  · intro row hrow
    rw [selectCols] at hrow
    obtain ⟨x, _, hi⟩ := List.mem_map.1 hrow
    rw [← hi, List.length_map]

theorem setAt_length (r : List F) (i : ℕ) (x : F) : (setAt r i x).length = r.length := by
  induction r generalizing i with
  | nil => rfl
  | cons y ys ih =>
    cases i with
    | zero => rfl
    | succ i => rw [setAt, List.length_cons, List.length_cons, ih]

theorem assignRow_length (r : List F) (idxs : List ℕ) (vals : List F) :
    (assignRow r idxs vals).length = r.length := by
  rw [assignRow]
  generalize (List.zip idxs vals) = ps
  induction ps generalizing r with
  | nil => rfl
  | cons p ps ih => rw [List.foldl_cons, ih, setAt_length]

theorem dims_assignCols {m : Mat} {r c : ℕ} (h : Dims m r c)
    (idxs : List ℕ) (vals : Mat) : Dims (assignCols m idxs vals) r c := by
  constructor
  · rw [assignCols, List.length_map, List.length_range, h.1]
  · intro row hrow
    rw [assignCols] at hrow
    obtain ⟨i, hi, hieq⟩ := List.mem_map.1 hrow
    rw [List.mem_range] at hi
    rw [← hieq, assignRow_length]
    exact h.2 _ (getD_mem m i [] hi)

theorem foldl_dims_invariant {r c : ℕ} (step : Mat → ℕ → Mat)
    (hstep : ∀ bd j, Dims bd r c → Dims (step bd j) r c) :
    ∀ (l : List ℕ) (init : Mat), Dims init r c → Dims (l.foldl step init) r c := by
  intro l
  induction l with
  | nil => intro init h; exact h
  | cons j js ih => intro init h; exact ih (step init j) (hstep init j h)

theorem encoder_transform_ok {cats xs : List ℚ}
    (h : ∀ v ∈ xs, v ∈ cats) :
    encoder_transform cats xs =
      Except.ok (xs.map (fun v => cats.map (fun c => if v = c then some 1 else some 0))) := by
  rw [encoder_transform, if_pos]
  rw [List.all_eq_true]
  intro v hv
  simp [h v hv]

theorem dims_encoder_result (cats xs : List ℚ) :
    Dims (xs.map (fun v => cats.map (fun c => if v = c then some 1 else some 0)))
      xs.length cats.length := by
  constructor
  · rw [List.length_map]
  · intro row hrow
    obtain ⟨x, _, hi⟩ := List.mem_map.1 hrow
    rw [← hi, List.length_map]

theorem hstack_single (b : Mat) : hstack [b] = Except.ok b := rfl

/-- C10.  For every fitted model (fitted without covariates, so the design is
exactly the site-indicator block) and every batch whose site values are all
among the fit-time site names — in particular any strict subset of them, in
which case the absent fit-time sites contribute empty partitions that the
per-site adjustment loop passes over without error — `transform` succeeds,
leaves the state untouched, and returns a matrix of exactly the shape of the
input feature matrix. -/
theorem C10_transform_on_site_subset
    (s : CState) (k nfeat : ℕ) (names : List ℚ) (beta : Mat) (gm vp : List F)
    (gs ds : Mat)
    (h1 : s.n_sites = some k) (h2 : s.sites_names = some names)
    (h3 : s.site_encoder = some names)
    (h4 : s.discrete_covariates_used = none) (h5 : s.continuous_covariates_used = none)
    (h6 : s.beta_hat = some beta) (h7 : s.grand_mean = some gm) (h8 : s.var_pooled = some vp)
    (h9 : s.gamma_star = some gs) (h10 : s.delta_star = some ds)
    (hk : 0 < k) (hnamesLen : names.length = k)
    (hbeta : Dims beta k nfeat) (hgm : gm.length = nfeat) (hvp : vp.length = nfeat)
    (hnf : 0 < nfeat)
    (data : Mat) (sites : List ℚ)
    (hlen : data.length = sites.length) (hne : sites ≠ [])
    (hdata : Dims data sites.length nfeat)
    (hok : check_array_data data = Except.ok data)
    (hsub : ∀ v ∈ sites, v ∈ names) :
    ∃ out : Mat, transform data sites none none s = (s, Except.ok out)
      ∧ Dims out data.length nfeat := by
  have hfit : s.n_sites.isSome = true := by rw [h1]; rfl
  have hne2 : sites.length ≠ 0 := fun h => hne (List.length_eq_zero.1 h)
  have hn : 0 < sites.length := Nat.pos_of_ne_zero hne2
  have hsok : check_array_sites sites = Except.ok sites := by
    rw [check_array_sites, if_neg hne2]
  have hcons : check_consistent_length data.length sites.length = Except.ok () := by
    rw [check_consistent_length, if_pos hlen]
  have hall : (uniqueSorted sites).all (fun u => decide (u ∈ names)) = true := by
    rw [List.all_eq_true]
    intro v hv
    simp [hsub v ((mem_uniqueSorted v sites).1 hv)]
  have henc := @encoder_transform_ok names sites hsub
  have hD : Dims (sites.map (fun v => names.map (fun c => if v = c then some 1 else some 0)))
      sites.length k := by
    rw [← hnamesLen]
    exact dims_encoder_result names sites
  have hMM : Dims (matMul (zeroFirstCols k
      (sites.map (fun v => names.map (fun c => if v = c then some 1 else some 0)))) beta)
      sites.length nfeat :=
    dims_matMul (dims_zeroFirstCols hD k).1 hbeta hk
  have hsmean : Dims (madd (outerOnes gm sites.length)
      (tr (matMul (zeroFirstCols k
        (sites.map (fun v => names.map (fun c => if v = c then some 1 else some 0)))) beta)))
      nfeat sites.length :=
    dims_madd (dims_outerOnes hgm sites.length) (dims_tr hMM hn)
  have hvpf : (vp.map fsqrt).length = nfeat := by rw [List.length_map, hvp]
  have hsd : Dims (mdivE (msub (tr data) (madd (outerOnes gm sites.length)
      (tr (matMul (zeroFirstCols k
        (sites.map (fun v => names.map (fun c => if v = c then some 1 else some 0)))) beta))))
      (outerOnes (vp.map fsqrt) sites.length)) nfeat sites.length := by
    apply dims_mdivE
    · exact dims_msub (dims_tr hdata hn) hsmean
    · exact dims_outerOnes hvpf sites.length
  simp only [transform.eq_def, make_design_matrix.eq_def, standardize_across_features,
    adjust_data_final, bind_run, getSt_run, liftE_run, getAttr_run, pure_run, throw_run,
    setSt_run, h1, h2, h3, h4, h5, h6, h7, h8, h9, h10, hfit, hok, hsok, hcons, hall, henc,
    Option.isSome_some, Option.isSome_none, Bool.false_eq_true, if_true, if_false,
    ite_true, ite_false, List.nil_append, List.append_nil, hstack_single]
  refine ⟨_, rfl, ?_⟩
  rw [hlen]
  apply dims_tr _ hnf
  apply dims_madd
  · apply dims_mmulE
    · exact foldl_dims_invariant _ (fun bd j h => dims_assignCols h _ _) _ _ hsd
    · exact dims_outerOnes hvpf sites.length
  · exact hsmean

/-! ### Claim C9: scaling one feature column -/

/-- Multiply entry `j` of a row by the finite constant `c`. -/
def scaleAt (c : ℚ) : ℕ → List F → List F
  | _, [] => []
  | 0, x :: xs => fmul (some c) x :: xs
  | j+1, x :: xs => x :: scaleAt c j xs

/-- Multiply column `j` of a matrix by the finite constant `c`. -/
def scaleCol (c : ℚ) (j : ℕ) (m : Mat) : Mat := m.map (scaleAt c j)

/-- Multiply row `j` of a matrix by the finite constant `c`. -/
def scaleRow (c : ℚ) : ℕ → Mat → Mat
  | _, [] => []
  | 0, r :: rs => r.map (fmul (some c)) :: rs
  | j+1, r :: rs => r :: scaleRow c j rs

/-- The effect of scaling feature column `j` by `c` on a fitted state: the
regression coefficients and the grand mean of that feature scale by `c`, its
pooled variance scales by `c * c`, and everything else (site bookkeeping,
encoders, and the shrunk parameters, which are functions of the standardized
data only) is unchanged. -/
def scaleState (c : ℚ) (j : ℕ) (s : CState) : CState :=
  { s with beta_hat := s.beta_hat.map (scaleCol c j),
           grand_mean := s.grand_mean.map (scaleAt c j),
           var_pooled := s.var_pooled.map (scaleAt (c*c) j) }

theorem fmul_some_zero (c : ℚ) : fmul (some c) (some 0) = some 0 := by
  rw [fmul_some, mul_zero]

theorem scaleAt_length (c : ℚ) (j : ℕ) (r : List F) :
    (scaleAt c j r).length = r.length := by
  induction r generalizing j with
  | nil => cases j <;> rfl
  | cons x xs ih =>
    cases j with
    | zero => rfl
    | succ j => rw [scaleAt, List.length_cons, List.length_cons, ih]

theorem scaleRow_length (c : ℚ) (j : ℕ) (m : Mat) :
    (scaleRow c j m).length = m.length := by
  induction m generalizing j with
  | nil => cases j <;> rfl
  | cons r rs ih =>
    cases j with
    | zero => rw [scaleRow, List.length_cons, List.length_cons]
    | succ j => rw [scaleRow, List.length_cons, List.length_cons, ih]

theorem scaleCol_length (c : ℚ) (j : ℕ) (m : Mat) :
    (scaleCol c j m).length = m.length := by
  rw [scaleCol, List.length_map]

theorem fisnan_fmul_some (c : ℚ) (x : F) : fisnan (fmul (some c) x) = fisnan x := by
  cases x <;> rfl

theorem getD_map_fmul (c : ℚ) (r : List F) (i : ℕ) :
    (r.map (fmul (some c))).getD i (some 0) = fmul (some c) (r.getD i (some 0)) := by
  induction r generalizing i with
  | nil => cases i <;> simp [fmul_some_zero]
  | cons x xs ih =>
    cases i with
    | zero => rfl
    | succ i => exact ih i

theorem scaleAt_getD (c : ℚ) (j : ℕ) (r : List F) (i : ℕ) :
    (scaleAt c j r).getD i (some 0) =
      if i = j then fmul (some c) (r.getD i (some 0)) else r.getD i (some 0) := by
  induction r generalizing i j with
  | nil =>
    cases i <;> cases j <;> simp [scaleAt, fmul_some_zero]
  | cons x xs ih =>
    cases j with
    | zero =>
      cases i with
      | zero => simp [scaleAt]
      | succ i => simp [scaleAt]
    | succ j =>
      cases i with
      | zero => simp [scaleAt]
      | succ i =>
        rw [scaleAt]
        show (scaleAt c j xs).getD i (some 0) = _
        rw [ih]
        by_cases h : i = j
        · rw [if_pos h, if_pos (by omega)]
          rfl
        · rw [if_neg h, if_neg (by omega)]
          rfl

theorem width_scaleCol (c : ℚ) (j : ℕ) (m : Mat) :
    width (scaleCol c j m) = width m := by
  cases m with
  | nil => rfl
  | cons r rs =>
    rw [scaleCol, List.map_cons, width, width, List.headD_cons, List.headD_cons,
      scaleAt_length]

theorem width_scaleRow (c : ℚ) (j : ℕ) (m : Mat) :
    width (scaleRow c j m) = width m := by
  cases m with
  | nil => cases j <;> rfl
  | cons r rs =>
    cases j with
    | zero =>
      rw [scaleRow, width, width, List.headD_cons, List.headD_cons, List.length_map]
    | succ j => rw [scaleRow, width, width, List.headD_cons, List.headD_cons]

theorem colAt_scaleCol (c : ℚ) (j : ℕ) (m : Mat) (i : ℕ) :
    colAt (scaleCol c j m) i =
      if i = j then (colAt m i).map (fmul (some c)) else colAt m i := by
  rw [colAt, colAt, scaleCol, List.map_map]
  by_cases h : i = j
  · rw [if_pos h, List.map_map]
    apply List.map_congr_left
    intro r _
    show (scaleAt c j r).getD i (some 0) = fmul (some c) (r.getD i (some 0))
    rw [scaleAt_getD, if_pos h]
  · rw [if_neg h]
    apply List.map_congr_left
    intro r _
    show (scaleAt c j r).getD i (some 0) = r.getD i (some 0)
    rw [scaleAt_getD, if_neg h]

theorem colAt_scaleRow (c : ℚ) (j : ℕ) (m : Mat) (i : ℕ) :
    colAt (scaleRow c j m) i = scaleAt c j (colAt m i) := by
  induction m generalizing j with
  | nil => cases j <;> rfl
  | cons r rs ih =>
    cases j with
    | zero =>
      rw [scaleRow, colAt, List.map_cons, colAt, List.map_cons, scaleAt,
        getD_map_fmul]
    | succ j =>
      show colAt (r :: scaleRow c j rs) i = scaleAt c (j+1) (colAt (r :: rs) i)
      rw [colAt, colAt, List.map_cons, List.map_cons, scaleAt]
      congr 1
      exact ih j

theorem getD_eq_getElem_of_lt {α : Type} (l : List α) (d : α) (i : ℕ)
    (h : i < l.length) : l.getD i d = l[i] := by
  induction l generalizing i with
  | nil => simp at h
  | cons x xs ih =>
    cases i with
    | zero => rfl
    | succ i => exact ih i (by simpa using h)

theorem scaleRow_getD (c : ℚ) (j : ℕ) (m : Mat) (i : ℕ) :
    (scaleRow c j m).getD i [] =
      if i = j then (m.getD i []).map (fmul (some c)) else m.getD i [] := by
  induction m generalizing i j with
  | nil =>
    cases i <;> cases j <;> simp [scaleRow]
  | cons r rs ih =>
    cases j with
    | zero =>
      cases i with
      | zero => simp [scaleRow]
      | succ i => simp [scaleRow]
    | succ j =>
      cases i with
      | zero => simp [scaleRow]
      | succ i =>
        rw [scaleRow]
        show (scaleRow c j rs).getD i [] = _
        rw [ih]
        by_cases h : i = j
        · rw [if_pos h, if_pos (by omega)]
          rfl
        · rw [if_neg h, if_neg (by omega)]
          rfl

theorem tr_scaleCol (c : ℚ) (j : ℕ) (m : Mat) :
    tr (scaleCol c j m) = scaleRow c j (tr m) := by
  rw [tr, tr, width_scaleCol]
  apply List.ext_getElem
  · rw [List.length_map, List.length_range, scaleRow_length, List.length_map,
      List.length_range]
  · intro i h1 h2
    rw [List.length_map, List.length_range] at h1
    rw [List.getElem_map, List.getElem_range, colAt_scaleCol]
    rw [← getD_eq_getElem_of_lt _ [] _ h2, scaleRow_getD]
    have hbase : ((List.range (width m)).map (colAt m)).getD i [] = colAt m i := by
      rw [getD_eq_getElem_of_lt _ [] _ (by rw [List.length_map, List.length_range]; exact h1),
        List.getElem_map, List.getElem_range]
    rw [hbase]

theorem tr_scaleRow (c : ℚ) (j : ℕ) (m : Mat) :
    tr (scaleRow c j m) = scaleCol c j (tr m) := by
  rw [tr, tr, width_scaleRow, scaleCol, List.map_map]
  apply List.map_congr_left
  intro i _
  show colAt (scaleRow c j m) i = scaleAt c j (colAt m i)
  exact colAt_scaleRow c j m i

theorem fmul_left_comm_some (c : ℚ) (x y : F) :
    fmul x (fmul (some c) y) = fmul (some c) (fmul x y) := by
  cases x with
  | none => rw [fmul_none_left, fmul_none_left, fmul_none_right]
  | some a =>
    cases y with
    | none => rfl
    | some b => rw [fmul_some, fmul_some, fmul_some, fmul_some, mul_left_comm]

theorem fsum_map_fmul (c : ℚ) (l : List F) :
    fsum (l.map (fmul (some c))) = fmul (some c) (fsum l) := by
  induction l with
  | nil =>
    show some 0 = fmul (some c) (some 0)
    rw [fmul_some_zero]
  | cons x xs ih =>
    show fadd (fmul (some c) x) (fsum (xs.map (fmul (some c)))) =
      fmul (some c) (fadd x (fsum xs))
    rw [ih, fmul_some_fadd]

theorem zipWith_fmul_map_right (c : ℚ) (a b : List F) :
    List.zipWith fmul a (b.map (fmul (some c))) =
      (List.zipWith fmul a b).map (fmul (some c)) := by
  induction a generalizing b with
  | nil => simp
  | cons x xs ih =>
    cases b with
    | nil => simp
    | cons y ys =>
      rw [List.map_cons, List.zipWith_cons_cons, List.zipWith_cons_cons,
        List.map_cons, ih, fmul_left_comm_some]

theorem zipWith_fmul_map_left (c : ℚ) (a b : List F) :
    List.zipWith fmul (a.map (fmul (some c))) b =
      (List.zipWith fmul a b).map (fmul (some c)) := by
  induction a generalizing b with
  | nil => simp
  | cons x xs ih =>
    cases b with
    | nil => simp
    | cons y ys =>
      rw [List.map_cons, List.zipWith_cons_cons, List.zipWith_cons_cons,
        List.map_cons, ih]
      congr 1
      rw [fmul_comm _ y, fmul_left_comm_some, fmul_comm y]

theorem dotF_scale_right (c : ℚ) (a b : List F) :
    dotF a (b.map (fmul (some c))) = fmul (some c) (dotF a b) := by
  rw [dotF, dotF, zipWith_fmul_map_right, fsum_map_fmul]

theorem dotF_scale_left (c : ℚ) (a b : List F) :
    dotF (a.map (fmul (some c))) b = fmul (some c) (dotF a b) := by
  rw [dotF, dotF, zipWith_fmul_map_left, fsum_map_fmul]

theorem map_scaleRow (c : ℚ) (j : ℕ) (m : Mat) (g : List F → F)
    (hg : ∀ col, g (col.map (fmul (some c))) = fmul (some c) (g col)) :
    (scaleRow c j m).map g = scaleAt c j (m.map g) := by
  induction m generalizing j with
  | nil => cases j <;> rfl
  | cons r rs ih =>
    cases j with
    | zero => rw [scaleRow, List.map_cons, List.map_cons, scaleAt, hg]
    | succ j => rw [scaleRow, List.map_cons, List.map_cons, scaleAt, ih]

theorem matMul_scaleCol_right (c : ℚ) (j : ℕ) (a b : Mat) :
    matMul a (scaleCol c j b) = scaleCol c j (matMul a b) := by
  rw [matMul, matMul, tr_scaleCol, scaleCol, List.map_map]
  apply List.map_congr_left
  intro ra _
  show (scaleRow c j (tr b)).map (dotF ra) = scaleAt c j ((tr b).map (dotF ra))
  exact map_scaleRow c j (tr b) (dotF ra) (fun col => dotF_scale_right c ra col)

theorem zipWith_fsub_map_fmul (c : ℚ) (a b : List F) :
    List.zipWith fsub (a.map (fmul (some c))) (b.map (fmul (some c))) =
      (List.zipWith fsub a b).map (fmul (some c)) := by
  induction a generalizing b with
  | nil => simp
  | cons x xs ih =>
    cases b with
    | nil => simp
    | cons y ys =>
      rw [List.map_cons, List.map_cons, List.zipWith_cons_cons,
        List.zipWith_cons_cons, List.map_cons, ih, fmul_some_fsub]

theorem zipWith_fadd_map_fmul (c : ℚ) (a b : List F) :
    List.zipWith fadd (a.map (fmul (some c))) (b.map (fmul (some c))) =
      (List.zipWith fadd a b).map (fmul (some c)) := by
  induction a generalizing b with
  | nil => simp
  | cons x xs ih =>
    cases b with
    | nil => simp
    | cons y ys =>
      rw [List.map_cons, List.map_cons, List.zipWith_cons_cons,
        List.zipWith_cons_cons, List.map_cons, ih, fmul_some_fadd]

theorem zipWith_fdiv_map_fmul (c : ℚ) (hc : c ≠ 0) (a b : List F) :
    List.zipWith fdiv (a.map (fmul (some c))) (b.map (fmul (some c))) =
      List.zipWith fdiv a b := by
  induction a generalizing b with
  | nil => simp
  | cons x xs ih =>
    cases b with
    | nil => simp
    | cons y ys =>
      rw [List.map_cons, List.map_cons, List.zipWith_cons_cons,
        List.zipWith_cons_cons, ih, fdiv_fmul_cancel c hc]

theorem msub_scaleRow (c : ℚ) (j : ℕ) (a b : Mat) :
    msub (scaleRow c j a) (scaleRow c j b) = scaleRow c j (msub a b) := by
  induction a generalizing b j with
  | nil => cases j <;> simp [msub, mzip, scaleRow]
  | cons x xs ih =>
    cases b with
    | nil => cases j <;> simp [msub, mzip, scaleRow]
    | cons y ys =>
      cases j with
      | zero =>
        show List.zipWith (List.zipWith fsub) (x.map (fmul (some c)) :: xs)
          (y.map (fmul (some c)) :: ys) = _
        rw [List.zipWith_cons_cons, zipWith_fsub_map_fmul]
        rfl
      | succ j =>
        show List.zipWith (List.zipWith fsub) (x :: scaleRow c j xs)
          (y :: scaleRow c j ys) = _
        rw [List.zipWith_cons_cons]
        show _ = List.zipWith fsub x y :: scaleRow c j (msub xs ys)
        rw [← ih]
        rfl

theorem madd_scaleRow (c : ℚ) (j : ℕ) (a b : Mat) :
    madd (scaleRow c j a) (scaleRow c j b) = scaleRow c j (madd a b) := by
  induction a generalizing b j with
  | nil => cases j <;> simp [madd, mzip, scaleRow]
  | cons x xs ih =>
    cases b with
    | nil => cases j <;> simp [madd, mzip, scaleRow]
    | cons y ys =>
      cases j with
      | zero =>
        show List.zipWith (List.zipWith fadd) (x.map (fmul (some c)) :: xs)
          (y.map (fmul (some c)) :: ys) = _
        rw [List.zipWith_cons_cons, zipWith_fadd_map_fmul]
        rfl
      | succ j =>
        show List.zipWith (List.zipWith fadd) (x :: scaleRow c j xs)
          (y :: scaleRow c j ys) = _
        rw [List.zipWith_cons_cons]
        show _ = List.zipWith fadd x y :: scaleRow c j (madd xs ys)
        rw [← ih]
        rfl

theorem mdivE_scaleRow (c : ℚ) (hc : c ≠ 0) (j : ℕ) (a b : Mat) :
    mdivE (scaleRow c j a) (scaleRow c j b) = mdivE a b := by
  induction a generalizing b j with
  | nil => cases j <;> simp [mdivE, mzip, scaleRow]
  | cons x xs ih =>
    cases b with
    | nil => cases j <;> simp [mdivE, mzip, scaleRow]
    | cons y ys =>
      cases j with
      | zero =>
        show List.zipWith (List.zipWith fdiv) (x.map (fmul (some c)) :: xs)
          (y.map (fmul (some c)) :: ys) = _
        rw [List.zipWith_cons_cons, zipWith_fdiv_map_fmul c hc]
        rfl
      | succ j =>
        show List.zipWith (List.zipWith fdiv) (x :: scaleRow c j xs)
          (y :: scaleRow c j ys) = _
        rw [List.zipWith_cons_cons]
        show _ = List.zipWith fdiv x y :: mdivE xs ys
        rw [← ih]
        rfl

theorem mmulE_scaleRow_right (c : ℚ) (j : ℕ) (a b : Mat) :
    mmulE a (scaleRow c j b) = scaleRow c j (mmulE a b) := by
  induction a generalizing b j with
  | nil => cases j <;> simp [mmulE, mzip, scaleRow]
  | cons x xs ih =>
    cases b with
    | nil => cases j <;> simp [mmulE, mzip, scaleRow]
    | cons y ys =>
      cases j with
      | zero =>
        show List.zipWith (List.zipWith fmul) (x :: xs)
          (y.map (fmul (some c)) :: ys) = _
        rw [List.zipWith_cons_cons, zipWith_fmul_map_right]
        rfl
      | succ j =>
        show List.zipWith (List.zipWith fmul) (x :: xs) (y :: scaleRow c j ys) = _
        rw [List.zipWith_cons_cons]
        show _ = List.zipWith fmul x y :: scaleRow c j (mmulE xs ys)
        rw [← ih]
        rfl

theorem map_sq_map_fmul (c : ℚ) (r : List F) :
    (r.map (fmul (some c))).map (fun x => fmul x x) =
      (r.map (fun x => fmul x x)).map (fmul (some (c * c))) := by
  rw [List.map_map, List.map_map]
  apply List.map_congr_left
  intro x _
  show fmul (fmul (some c) x) (fmul (some c) x) = fmul (some (c*c)) (fmul x x)
  exact fmul_self_scale c x

theorem msq_scaleRow (c : ℚ) (j : ℕ) (m : Mat) :
    msq (scaleRow c j m) = scaleRow (c * c) j (msq m) := by
  induction m generalizing j with
  | nil => cases j <;> rfl
  | cons r rs ih =>
    cases j with
    | zero =>
      show (r.map (fmul (some c))).map (fun x => fmul x x) :: msq rs = _
      rw [map_sq_map_fmul]
      rfl
    | succ j =>
      show r.map (fun x => fmul x x) :: msq (scaleRow c j rs) = _
      rw [ih]
      rfl

theorem outerOnes_scaleAt (c : ℚ) (j : ℕ) (v : List F) (n : ℕ) :
    outerOnes (scaleAt c j v) n = scaleRow c j (outerOnes v n) := by
  induction v generalizing j with
  | nil => cases j <;> rfl
  | cons x xs ih =>
    cases j with
    | zero =>
      show List.replicate n (fmul (some c) x) :: outerOnes xs n = _
      rw [← List.map_replicate]
      rfl
    | succ j =>
      show List.replicate n x :: outerOnes (scaleAt c j xs) n = _
      rw [ih]
      rfl

theorem map_fsqrt_scaleAt (c : ℚ) (hc : 0 < c) (j : ℕ) (v : List F) :
    (scaleAt (c * c) j v).map fsqrt = scaleAt c j (v.map fsqrt) := by
  induction v generalizing j with
  | nil => cases j <;> rfl
  | cons x xs ih =>
    cases j with
    | zero =>
      show fsqrt (fmul (some (c*c)) x) :: xs.map fsqrt = _
      rw [fsqrt_scale c hc x]
      rfl
    | succ j =>
      show fsqrt x :: (scaleAt (c*c) j xs).map fsqrt = _
      rw [ih]
      rfl

theorem take_scaleCol (c : ℚ) (j k : ℕ) (m : Mat) :
    (scaleCol c j m).take k = scaleCol c j (m.take k) := by
  rw [scaleCol, scaleCol, List.map_take]

theorem all_fisnan_scaleAt (c : ℚ) (j : ℕ) (r : List F) :
    (scaleAt c j r).all (fun x => !(fisnan x)) = r.all (fun x => !(fisnan x)) := by
  induction r generalizing j with
  | nil => cases j <;> rfl
  | cons x xs ih =>
    cases j with
    | zero => simp [scaleAt, List.all_cons, fisnan_fmul_some]
    | succ j => simp [scaleAt, List.all_cons, ih]

theorem check_array_data_scaleCol (c : ℚ) (j : ℕ) (d : List (List F)) :
    check_array_data (scaleCol c j d) = (check_array_data d).map (scaleCol c j) := by
  rw [check_array_data, check_array_data, scaleCol_length, width_scaleCol]
  have hrect : (scaleCol c j d).all (fun r => decide (r.length = width d)) =
      d.all (fun r => decide (r.length = width d)) := by
    rw [scaleCol, List.all_map]
    apply congrArg d.all
    funext r
    show decide ((scaleAt c j r).length = width d) = decide (r.length = width d)
    rw [scaleAt_length]
  have hfin : (scaleCol c j d).all (fun r => r.all (fun x => !(fisnan x))) =
      d.all (fun r => r.all (fun x => !(fisnan x))) := by
    rw [scaleCol, List.all_map]
    apply congrArg d.all
    funext r
    exact all_fisnan_scaleAt c j r
  rw [hrect, hfin]
  by_cases h1 : d.length = 0
  · rw [if_pos h1, if_pos h1]
    rfl
  · rw [if_neg h1, if_neg h1]
    by_cases h2 : d.all (fun r => decide (r.length = width d)) = true
    · rw [h2]
      show (if width d = 0 then _ else _) = _
      by_cases h3 : width d = 0
      · rw [if_pos h3, if_pos h3]
        rfl
      · rw [if_neg h3, if_neg h3]
        by_cases h4 : d.all (fun r => r.all (fun x => !(fisnan x))) = true
        · rw [h4]
          rfl
        · rw [Bool.not_eq_true] at h4
          rw [h4]
          rfl
    · rw [Bool.not_eq_true] at h2
      rw [h2]
      rfl

/-- A computation commutes with the scaling of the stored model parameters:
it neither reads nor writes the scaled fields in a scale-sensitive way. -/
def Commutes (c : ℚ) (j : ℕ) {α : Type} (m : CM α) : Prop :=
  ∀ s : CState, m (scaleState c j s) = (scaleState c j (m s).1, (m s).2)

theorem commutes_pure {c : ℚ} {j : ℕ} {α : Type} (a : α) :
    Commutes c j (pure a : CM α) := fun _ => rfl

theorem commutes_throw {c : ℚ} {j : ℕ} {α : Type} (e : PyErr) :
    Commutes c j (CM.throw e : CM α) := fun _ => rfl

theorem commutes_liftE {c : ℚ} {j : ℕ} {α : Type} (x : Except PyErr α) :
    Commutes c j (liftE x) := fun _ => rfl

theorem commutes_bind {c : ℚ} {j : ℕ} {α β : Type} (x : CM α) (f : α → CM β)
    (hx : Commutes c j x) (hf : ∀ a, Commutes c j (f a)) : Commutes c j (x >>= f) := by
  intro s
  rw [bind_run, bind_run, hx s]
  rcases hr : x s with ⟨s2, r⟩
  cases r with
  | ok a => exact hf a s2
  | error e => rfl

theorem commutes_getAttr {c : ℚ} {j : ℕ} {α : Type} (proj : CState → Option α)
    (name : String) (hp : ∀ s, proj (scaleState c j s) = proj s) :
    Commutes c j (getAttr proj name) := by
  intro s
  rw [getAttr_run, getAttr_run, hp s]
  cases proj s <;> rfl

theorem commutes_setSt {c : ℚ} {j : ℕ} (upd : CState → CState)
    (h : ∀ s, upd (scaleState c j s) = scaleState c j (upd s)) :
    Commutes c j (setSt upd) := by
  intro s
  rw [setSt_run, setSt_run, h s]

theorem commutes_ite {c : ℚ} {j : ℕ} {α : Type} (p : Prop) [Decidable p]
    (x y : CM α) (hx : Commutes c j x) (hy : Commutes c j y) :
    Commutes c j (if p then x else y) := by
  by_cases h : p
  · rw [if_pos h]; exact hx
  · rw [if_neg h]; exact hy

theorem commutes_make_design_matrix (c : ℚ) (j : ℕ) (sites : List ℚ)
    (dcov : Option (List (List ℚ))) (ccov : Option Mat) (fitting : Bool) :
    Commutes c j (make_design_matrix sites dcov ccov fitting) := by
  rw [make_design_matrix.eq_def]
  apply commutes_bind
  · apply commutes_ite
    · exact commutes_setSt _ (fun s => rfl)
    · exact commutes_pure _
  intro _
  apply commutes_bind
  · exact commutes_getAttr _ _ (fun s => rfl)
  intro cats
  apply commutes_bind _ _ (commutes_liftE _)
  intro sites_design
  apply commutes_bind
  · cases dcov with
    | none => exact commutes_pure _
    | some dc =>
      apply commutes_bind
      · apply commutes_ite
        · exact commutes_setSt _ (fun s => rfl)
        · exact commutes_pure _
      intro _
      apply commutes_bind
      · exact commutes_getAttr _ _ (fun s => rfl)
      intro encs
      exact commutes_liftE _
  · intro dblocks
    exact commutes_liftE _

theorem commutes_fit_ls_model (c : ℚ) (j : ℕ) (standardized_data design : Mat)
    (idx_per_site : List (List ℕ)) :
    Commutes c j (fit_ls_model standardized_data design idx_per_site) := by
  rw [fit_ls_model]
  apply commutes_bind
  · exact commutes_getAttr _ _ (fun s => rfl)
  intro k
  apply commutes_bind _ _ (commutes_liftE _)
  intro sdInv
  exact commutes_pure _

theorem commutes_find_parametric_adjustments (c : ℚ) (j : ℕ) (fuel : ℕ)
    (standardized_data : Mat) (idx_per_site : List (List ℕ)) (gamma_hat : Mat)
    (delta_hat : List (List F)) (gamma_bar tau_2 a_prior b_prior : List F) :
    Commutes c j (find_parametric_adjustments fuel standardized_data idx_per_site
      gamma_hat delta_hat gamma_bar tau_2 a_prior b_prior) := by
  rw [find_parametric_adjustments]
  apply commutes_bind _ _ (commutes_liftE _)
  intro results
  exact commutes_pure _

/-- The state obtained by fitting the `dataC5` scenario (sites `{0, 1}`). -/
def fittedC10 : CState := (fit 5 dataC5 sitesC5 none none emptyState).1

/-- A transform batch for `fittedC10` whose site values are all `0`: a strict
subset of the fit-time sites, leaving site `1` with an empty partition. -/
def batchC10 : List (List F) := [[some 1, some 2], [some 5, some 6]]

/-- Witness for `C10_transform_on_site_subset` on the concrete fitted model
`fittedC10` and the strict-subset batch `batchC10`. -/
theorem C10_witness :
    ∃ out : Mat, transform batchC10 [0, 0] none none fittedC10 = (fittedC10, Except.ok out)
      ∧ Dims out batchC10.length 2 :=
  C10_transform_on_site_subset fittedC10 2 2 [0, 1]
    [[some 3, some 6], [some 1, some 2]]
    [some (mkRat 13 5), some (mkRat 26 5)] [some 4, some 16]
    [[some (mkRat 1 5), some (mkRat 1 5)], [none, none]]
    [[none, none], [none, none]]
    (by decide) (by decide) (by decide) (by decide) (by decide) (by decide) (by decide)
    (by decide) (by decide) (by decide) (by decide) (by decide) ⟨by decide, by decide⟩
    (by decide) (by decide) (by decide) batchC10 [0, 0] (by decide) (by decide)
    ⟨by decide, by decide⟩ (by decide) (by decide)


theorem map_dotF_left_scaleRow (c : ℚ) (j : ℕ) (w : List F) (m : Mat) :
    (scaleRow c j m).map (fun col => dotF w col) =
      scaleAt c j (m.map (fun col => dotF w col)) :=
  map_scaleRow c j m _ (fun col => dotF_scale_right c w col)

theorem map_dotF_right_scaleRow (c : ℚ) (j : ℕ) (w : List F) (m : Mat) :
    (scaleRow c j m).map (fun r => dotF r w) =
      scaleAt c j (m.map (fun r => dotF r w)) :=
  map_scaleRow c j m _ (fun col => dotF_scale_left c col w)

theorem standardize_scaleState (c : ℚ) (hc : 0 < c) (j : ℕ) (dataT design : Mat)
    (n : ℕ) (nps : List ℕ) (fitting : Bool) (s : CState) :
    standardize_across_features (scaleRow c j dataT) design n nps fitting (scaleState c j s) =
      (scaleState c j (standardize_across_features dataT design n nps fitting s).1,
       ((standardize_across_features dataT design n nps fitting s).2).map
         (fun p => (p.1, scaleRow c j p.2))) := by
  have hc0 : c ≠ 0 := ne_of_gt hc
  cases fitting with
  | false =>
    simp only [standardize_across_features, bind_run, liftE_run, getAttr_run, setSt_run,
      pure_run, scaleState, Bool.false_eq_true, if_false]
    cases hB : s.beta_hat with
    | none => simp [*, Except.map]
    | some B =>
      simp only [Option.map_some']
      cases hG : s.grand_mean with
      | none => simp [*, Except.map]
      | some G =>
        simp only [Option.map_some']
        cases hV : s.var_pooled with
        | none => simp [*, Except.map]
        | some V =>
          simp only [Option.map_some']
          cases hk : s.n_sites with
          | none => simp [*, Except.map]
          | some k =>
            simp only [hB, hG, hV, hk, take_scaleCol, tr_scaleCol, matMul_scaleCol_right,
              outerOnes_scaleAt, madd_scaleRow, msub_scaleRow, Except.map,
              map_fsqrt_scaleAt c hc, mdivE_scaleRow c hc0, Option.map_some']
  | true =>
    cases hInv : la_inv (matMul (tr design) design) with
    | error e =>
      simp only [standardize_across_features, bind_run, liftE_run, getAttr_run, setSt_run,
        pure_run, hInv, if_true, scaleState, Except.map]
    | ok M =>
      simp only [standardize_across_features, bind_run, liftE_run, getAttr_run, setSt_run,
        pure_run, hInv, if_true, scaleState, tr_scaleRow, matMul_scaleCol_right,
        Option.map_some']
      cases hk : s.n_sites with
      | none => simp [*, Except.map]
      | some k =>
        simp only [hk, take_scaleCol, tr_scaleCol, matMul_scaleCol_right,
          map_dotF_left_scaleRow, map_dotF_right_scaleRow, msub_scaleRow, msq_scaleRow,
          outerOnes_scaleAt, madd_scaleRow, map_fsqrt_scaleAt c hc, mdivE_scaleRow c hc0,
          Except.map, Option.map_some']

theorem adjust_scaleState (c : ℚ) (hc : 0 < c) (j : ℕ) (sdata design smean : Mat)
    (nps : List ℕ) (n : ℕ) (idx : List (List ℕ)) (s : CState) :
    adjust_data_final sdata design (scaleRow c j smean) nps n idx (scaleState c j s) =
      (scaleState c j (adjust_data_final sdata design smean nps n idx s).1,
       ((adjust_data_final sdata design smean nps n idx s).2).map (scaleRow c j)) := by
  simp only [adjust_data_final, bind_run, getAttr_run, pure_run, scaleState]
  cases hk : s.n_sites with
  | none => simp [*, Except.map]
  | some k =>
    simp only [Option.map_some']
    cases hV : s.var_pooled with
    | none => simp [*, Except.map]
    | some V =>
      simp only [Option.map_some']
      cases hGam : s.gamma_star with
      | none => simp [*, Except.map]
      | some Gam =>
        cases hDel : s.delta_star with
        | none => simp [*, Except.map]
        | some Del =>
          simp only [hk, hV, hGam, hDel, map_fsqrt_scaleAt c hc, outerOnes_scaleAt,
            mmulE_scaleRow_right, madd_scaleRow, Except.map, Option.map_some']

theorem commutes_delAttr {c : ℚ} {j : ℕ} {α : Type} (proj : CState → Option α)
    (upd : CState → CState) (name : String)
    (hp : ∀ s, (proj (scaleState c j s)).isSome = (proj s).isSome)
    (hu : ∀ s, upd (scaleState c j s) = scaleState c j (upd s)) :
    Commutes c j (delAttr proj upd name) := by
  intro s
  rw [delAttr_run, delAttr_run]
  cases h : proj s with
  | none =>
    have h2 : proj (scaleState c j s) = none := by
      have h3 := hp s
      rw [h] at h3
      exact Option.not_isSome_iff_eq_none.mp (by simp [h3])
    rw [h2]
  | some v =>
    have h2 : (proj (scaleState c j s)).isSome = true := by rw [hp s, h]; rfl
    rcases Option.isSome_iff_exists.mp h2 with ⟨w, hw⟩
    rw [hw, hu s]

theorem getSt_bind_run {α : Type} (k : CState → CM α) (s : CState) :
    (getSt >>= k) s = k s s := rfl

theorem commutes_reset (c : ℚ) (j : ℕ) : Commutes c j reset := by
  intro s
  rw [reset, getSt_bind_run, getSt_bind_run]
  have hn : (scaleState c j s).n_sites = s.n_sites := rfl
  rw [hn]
  by_cases h : s.n_sites.isSome
  · rw [if_pos h]
    refine (?_ : Commutes c j _) s
    apply commutes_bind
    · exact commutes_delAttr _ _ _ (fun s => rfl) (fun s => rfl)
    intro _
    apply commutes_bind
    · exact commutes_delAttr _ _ _ (fun s => rfl) (fun s => rfl)
    intro _
    apply commutes_bind
    · exact commutes_delAttr _ _ _ (fun s => rfl) (fun s => rfl)
    intro _
    apply commutes_bind
    · exact commutes_delAttr _ _ _ (fun s => rfl) (fun s => rfl)
    intro _
    apply commutes_bind
    · exact commutes_delAttr _ _ _ (fun s => rfl) (fun s => rfl)
    intro _
    apply commutes_bind
    · exact commutes_delAttr _ _ _ (fun s => rfl) (fun s => rfl)
    intro _
    apply commutes_bind
    · exact commutes_delAttr _ _ _ (fun s => by show (s.beta_hat.map _).isSome = _; cases s.beta_hat <;> rfl) (fun s => rfl)
    intro _
    apply commutes_bind
    · exact commutes_delAttr _ _ _ (fun s => by show (s.grand_mean.map _).isSome = _; cases s.grand_mean <;> rfl) (fun s => rfl)
    intro _
    apply commutes_bind
    · exact commutes_delAttr _ _ _ (fun s => by show (s.var_pooled.map _).isSome = _; cases s.var_pooled <;> rfl) (fun s => rfl)
    intro _
    apply commutes_bind
    · exact commutes_delAttr _ _ _ (fun s => rfl) (fun s => rfl)
    intro _
    exact commutes_delAttr _ _ _ (fun s => rfl) (fun s => rfl)
  · rw [if_neg h]
    rfl

/-- Relational simulation between a run on the original state and a run on the
column-scaled state: the scaled run ends in the scaled final state and returns
the `f`-image of the original value. -/
def RelM (c : ℚ) (j : ℕ) {α β : Type} (f : α → β) (mR : CM α) (mL : CM β) : Prop :=
  ∀ s : CState, mL (scaleState c j s) = (scaleState c j (mR s).1, Except.map f (mR s).2)

theorem relM_pure {c : ℚ} {j : ℕ} {α β : Type} (f : α → β) (a : α) :
    RelM c j f (pure a) (pure (f a)) := fun _ => rfl

theorem relM_throw {c : ℚ} {j : ℕ} {α β : Type} (f : α → β) (e : PyErr) :
    RelM c j f (CM.throw e : CM α) (CM.throw e : CM β) := fun _ => rfl

theorem relM_liftE {c : ℚ} {j : ℕ} {α β : Type} (f : α → β) (x : Except PyErr α) :
    RelM c j f (liftE x) (liftE (Except.map f x)) := fun _ => by cases x <;> rfl

theorem relM_getSt {c : ℚ} {j : ℕ} : RelM c j (scaleState c j) getSt getSt := fun _ => rfl

theorem relM_of_commutes {c : ℚ} {j : ℕ} {α : Type} (m : CM α) (hm : Commutes c j m) :
    RelM c j (fun a => a) m m := by
  intro s
  rw [hm s]
  rcases m s with ⟨s2, r⟩
  cases r <;> rfl

theorem relM_liftE_same {c : ℚ} {j : ℕ} {α : Type} (x : Except PyErr α) :
    RelM c j (fun a => a) (liftE x) (liftE x) :=
  relM_of_commutes _ (commutes_liftE x)

theorem relM_bind {c : ℚ} {j : ℕ} {α α2 β β2 : Type} {f : α → α2} {g : β → β2}
    {xR : CM α} {xL : CM α2} {kR : α → CM β} {kL : α2 → CM β2}
    (hx : RelM c j f xR xL) (hk : ∀ a, RelM c j g (kR a) (kL (f a))) :
    RelM c j g (xR >>= kR) (xL >>= kL) := by
  intro s
  rw [bind_run, bind_run, hx s]
  rcases xR s with ⟨s2, r⟩
  cases r with
  | ok a => exact hk a s2
  | error e => rfl

theorem relM_bindU {c : ℚ} {j : ℕ} {β β2 : Type} {g : β → β2} {xR xL : CM Unit}
    {kR : Unit → CM β} {kL : Unit → CM β2}
    (hx : RelM c j (fun u : Unit => u) xR xL) (hk : RelM c j g (kR ()) (kL ())) :
    RelM c j g (xR >>= kR) (xL >>= kL) :=
  relM_bind hx (fun a => by cases a; exact hk)

theorem relM_bindI {c : ℚ} {j : ℕ} {α β β2 : Type} {g : β → β2} {xR xL : CM α}
    {kR : α → CM β} {kL : α → CM β2}
    (hx : RelM c j (fun a : α => a) xR xL) (hk : ∀ a, RelM c j g (kR a) (kL a)) :
    RelM c j g (xR >>= kR) (xL >>= kL) :=
  relM_bind hx hk

theorem relM_ite {c : ℚ} {j : ℕ} {α β : Type} {f : α → β} (p : Prop) [Decidable p]
    {xR yR : CM α} {xL yL : CM β}
    (hx : RelM c j f xR xL) (hy : RelM c j f yR yL) :
    RelM c j f (if p then xR else yR) (if p then xL else yL) := by
  by_cases h : p
  · rw [if_pos h]
    rw [if_pos h]
    exact hx
  · rw [if_neg h]
    rw [if_neg h]
    exact hy

theorem relM_standardize (c : ℚ) (hc : 0 < c) (j : ℕ) (dataT design : Mat) (n : ℕ)
    (nps : List ℕ) (fitting : Bool) :
    RelM c j (fun p : Mat × Mat => (p.1, scaleRow c j p.2))
      (standardize_across_features dataT design n nps fitting)
      (standardize_across_features (scaleRow c j dataT) design n nps fitting) :=
  fun s => standardize_scaleState c hc j dataT design n nps fitting s

theorem relM_adjust (c : ℚ) (hc : 0 < c) (j : ℕ) (sdata design smean : Mat)
    (nps : List ℕ) (n : ℕ) (idx : List (List ℕ)) :
    RelM c j (scaleRow c j)
      (adjust_data_final sdata design smean nps n idx)
      (adjust_data_final sdata design (scaleRow c j smean) nps n idx) :=
  fun s => adjust_scaleState c hc j sdata design smean nps n idx s

theorem fit_rel (c : ℚ) (hc : 0 < c) (j : ℕ) (fuel : ℕ) (data : List (List F))
    (sites : List ℚ) (dcov : Option (List (List ℚ))) (ccov : Option Mat) :
    RelM c j (fun u : Unit => u) (fit fuel data sites dcov ccov)
      (fit fuel (scaleCol c j data) sites dcov ccov) := by
  rw [fit.eq_def]
  rw [fit.eq_def]
  refine relM_bind (relM_of_commutes _ (commutes_reset c j)) ?_
  intro u0
  rw [check_array_data_scaleCol]
  refine relM_bind (relM_liftE (scaleCol c j) _) ?_
  intro d2
  refine relM_bind (relM_liftE_same _) ?_
  intro sites2
  rw [scaleCol_length]
  refine relM_bind (relM_liftE_same _) ?_
  intro u1
  refine relM_bindU ?_ ?_
  · cases dcov with
    | none => exact relM_pure (fun a => a) ()
    | some dc =>
      refine relM_bindU (relM_of_commutes _ (commutes_setSt _ (fun s => rfl))) ?_
      refine relM_bind (relM_liftE_same _) ?_
      intro u3
      exact relM_pure (fun a => a) ()
  refine relM_bindU ?_ ?_
  · cases ccov with
    | none => exact relM_pure (fun a => a) ()
    | some cc =>
      refine relM_bindU (relM_of_commutes _ (commutes_setSt _ (fun s => rfl))) ?_
      refine relM_bind (relM_liftE_same _) ?_
      intro u6
      exact relM_pure (fun a => a) ()
  refine relM_bind (relM_of_commutes _ (commutes_setSt _ (fun s => rfl))) ?_
  intro u8
  refine relM_bind (relM_of_commutes _ (commutes_setSt _ (fun s => rfl))) ?_
  intro u9
  refine relM_bind (relM_of_commutes _ (commutes_make_design_matrix c j sites2 dcov ccov true)) ?_
  intro design
  rw [tr_scaleCol]
  refine relM_bind (relM_standardize c hc j _ _ _ _ _) ?_
  intro std
  refine relM_bind (relM_of_commutes _ (commutes_fit_ls_model c j _ _ _)) ?_
  intro ls
  refine relM_bind
    (relM_of_commutes _ (commutes_find_parametric_adjustments c j fuel _ _ _ _ _ _ _ _)) ?_
  intro adj
  refine relM_bind (relM_of_commutes _ (commutes_setSt _ (fun s => rfl))) ?_
  intro u10
  refine relM_bind (relM_of_commutes _ (commutes_setSt _ (fun s => rfl))) ?_
  intro u11
  exact relM_pure (fun u => u) ()

theorem transform_rel (c : ℚ) (hc : 0 < c) (j : ℕ) (data : List (List F))
    (sites : List ℚ) (dcov : Option (List (List ℚ))) (ccov : Option Mat) :
    RelM c j (scaleCol c j) (transform data sites dcov ccov)
      (transform (scaleCol c j data) sites dcov ccov) := by
  rw [transform.eq_def]
  rw [transform.eq_def]
  refine relM_bind relM_getSt ?_
  intro s0
  simp only [scaleState]
  refine relM_bindU (relM_ite _ (relM_pure (fun a => a) ()) (relM_throw _ _)) ?_
  rw [check_array_data_scaleCol]
  refine relM_bind (relM_liftE (scaleCol c j) _) ?_
  intro d2
  refine relM_bind (relM_liftE_same _) ?_
  intro sites2
  rw [scaleCol_length]
  refine relM_bindU (relM_liftE_same _) ?_
  refine relM_bindI ?_ ?_
  · refine relM_ite _ ?_ ?_
    · cases dcov with
      | some dc =>
        refine relM_bind (relM_liftE_same _) ?_
        intro dc2
        exact relM_pure (fun a => a) (some dc2)
      | none => exact relM_throw _ _
    · exact relM_pure (fun a => a) dcov
  intro dcov2
  refine relM_bindI ?_ ?_
  · refine relM_ite _ ?_ ?_
    · cases ccov with
      | some cc =>
        refine relM_bind (relM_liftE_same _) ?_
        intro cc2
        exact relM_pure (fun a => a) (some cc2)
      | none => exact relM_throw _ _
    · exact relM_pure (fun a => a) ccov
  intro ccov2
  refine relM_bind (relM_of_commutes _ (commutes_getAttr _ _ (fun s => rfl))) ?_
  intro names
  refine relM_bindU (relM_ite _ (relM_pure (fun a => a) ()) (relM_throw _ _)) ?_
  refine relM_bind (relM_of_commutes _ (commutes_make_design_matrix c j sites2 dcov2 ccov2 false)) ?_
  intro design
  rw [tr_scaleCol]
  refine relM_bind (relM_standardize c hc j _ _ _ _ _) ?_
  intro std
  refine relM_bind (relM_adjust c hc j _ _ _ _ _ _) ?_
  intro bayes
  rw [tr_scaleRow]
  exact relM_pure (scaleCol c j) (tr bayes)

theorem fit_scaleCol (c : ℚ) (hc : 0 < c) (j : ℕ) (fuel : ℕ) (data : List (List F))
    (sites : List ℚ) (dcov : Option (List (List ℚ))) (ccov : Option Mat) :
    fit fuel (scaleCol c j data) sites dcov ccov emptyState =
      (scaleState c j (fit fuel data sites dcov ccov emptyState).1,
       (fit fuel data sites dcov ccov emptyState).2) := by
  have h := fit_rel c hc j fuel data sites dcov ccov emptyState
  rcases hr : fit fuel data sites dcov ccov emptyState with ⟨s1, r⟩
  rw [hr] at h
  cases r with
  | ok a => cases a; exact h
  | error e => exact h

/-- **C9.** Scale invariance of features: multiplying one feature column of the
data by a positive constant before both `fit` (on a fresh instance) and
`transform` scales that feature's harmonized output by the same constant and
leaves all other features unchanged (the fitted state changes only by the
corresponding rescaling of `beta_hat`, `grand_mean` and `var_pooled`). -/
theorem C9_scale_invariance (c : ℚ) (j : ℕ) (fuel : ℕ)
    (data data2 : List (List F)) (sites sites2 : List ℚ)
    (dcov dcov2 : Option (List (List ℚ))) (ccov ccov2 : Option Mat)
    (s1 : CState) (out : Mat) (hc : 0 < c)
    (hfit : fit fuel data sites dcov ccov emptyState = (s1, Except.ok ()))
    (htr : transform data2 sites2 dcov2 ccov2 s1 = (s1, Except.ok out)) :
    fit fuel (scaleCol c j data) sites dcov ccov emptyState =
      (scaleState c j s1, Except.ok ()) ∧
    transform (scaleCol c j data2) sites2 dcov2 ccov2 (scaleState c j s1) =
      (scaleState c j s1, Except.ok (scaleCol c j out)) := by
  constructor
  · rw [fit_scaleCol c hc j fuel data sites dcov ccov, hfit]
  · have h := transform_rel c hc j data2 sites2 dcov2 ccov2 s1
    rw [htr] at h
    exact h

/-- Witness for `C9_scale_invariance` at `c = 2`, `j = 0`, on the `dataC5`
fit and the `batchC10` transform batch. -/
theorem C9_witness :
    (0 : ℚ) < 2 ∧
    (fit 5 (scaleCol 2 0 dataC5) sitesC5 none none emptyState =
        (scaleState 2 0 fittedC10, Except.ok ()) ∧
      transform (scaleCol 2 0 batchC10) [0, 0] none none (scaleState 2 0 fittedC10) =
        (scaleState 2 0 fittedC10, Except.ok (scaleCol 2 0 [[none, none], [none, none]]))) :=
  ⟨by norm_num,
   C9_scale_invariance 2 0 5 dataC5 batchC10 sitesC5 [0, 0] none none none none
     fittedC10 [[none, none], [none, none]] (by norm_num) (by decide) (by decide)⟩

end NC
